import Mathlib

/-!
The program grib2atlas.

A shallow embedding of `src/grib2atlas/main.cc`: the sequential GRIB message reader
(`GribFileReader`), the export into an atlas-io record (`convert_grib_to_atlas_io`),
the command line parser (`CommandLineOptions`) and the load loop of `main`.

The external libraries are modelled by what the program observes of them:

* ecCodes: a file is the list of its messages in file order, a message is a table of
  string keys, a table of integer keys and a payload; a decoded handle gets a fresh
  identity at each acquisition, and every acquisition and release is logged;
* atlas-io: a record is the list of the entries written, read back by key;
* atlas function spaces: the collective calls are logged in issue order.

The payload element type `α` stands for `double`; the program only copies payloads.
-/

set_option linter.dupNamespace false

namespace Grib2Atlas

/-! ## Process termination and indeterminate locals -/

/-- Termination by `std::exit(status)` after `diagnostic` was printed on `std::cerr`. -/
structure Exit where
  diagnostic : String
  status : Int
deriving DecidableEq, Repr

/-- Contents of the locals that one call of an accessor declares without initialising them
(`char buffer[64]`, `long value`, `size_t size`): they are what that call hands back when
the decoder does not write its output argument. Every call has its own: a function that
calls several accessors takes one `Indeterminate` for each call. -/
structure Indeterminate where
  buffer : String
  value : Int
  size : Nat
deriving DecidableEq, Repr

/-! ## ecCodes as the program sees it -/

/-- Status returned by the `codes_get_*` calls (every call site discards it). -/
inductive CodesStatus where
  | success
  | not_found
  | buffer_too_small
  | array_too_small
  | null_handle
deriving DecidableEq, Repr

/-- One message of the input file: string-typed keys, integer-typed keys, payload. -/
structure Message (α : Type) where
  strings : List (String × String)
  longs : List (String × Int)
  values : List α

/-- A decoded message (`codes_handle*`); `id` identifies the acquisition. -/
structure codes_handle (α : Type) where
  id : Nat
  message : Message α

/-- Acquisition (`codes_handle_new_from_file`) or release (`codes_handle_delete`)
of a decoded message. -/
inductive HandleEvent where
  | acquire (id : Nat)
  | release (id : Nat)
deriving DecidableEq, Repr

/-- An open input stream: `count` is what `codes_count_in_file` reports, `messages` are
the messages not yet consumed, `none` standing for one that cannot be decoded. -/
structure GribFile (α : Type) where
  count : Int
  messages : List (Option (Message α))

/-- What `std::filesystem::exists` and `fopen` find at a path. -/
inductive PathStatus (α : Type) where
  | missing
  | unopenable
  | readable (file : GribFile α)

/-- Effect of one event on the list of handles that are acquired and not released. -/
def liveStep (held : List Nat) : HandleEvent → List Nat
  | HandleEvent.acquire id => id :: held
  | HandleEvent.release id => held.erase id

/-- Handles acquired and not yet released after the events, oldest event first. -/
def live (events : List HandleEvent) : List Nat :=
  events.foldl liveStep []

/-- Number of acquisitions logged so far; the next acquisition takes it as identity. -/
def acquisitions (events : List HandleEvent) : Nat :=
  events.countP fun e => match e with
    | HandleEvent.acquire _ => true
    | HandleEvent.release _ => false

/-- The call `codes_handle_new_from_file(nullptr, file, PRODUCT_GRIB, &err)`: consumes the next
message of the stream; yields a null handle at end of file, on a null stream and on a
message that cannot be decoded. Returns the handle, the stream and the event log. -/
def codes_handle_new_from_file {α : Type} (file : Option (GribFile α)) (events : List HandleEvent) :
    Option (codes_handle α) × Option (GribFile α) × List HandleEvent :=
  match file with
  | none => (none, none, events)
  | some f =>
    match f.messages with
    | [] => (none, some f, events)
    | none :: rest => (none, some { f with messages := rest }, events)
    | some m :: rest =>
      (some ⟨acquisitions events, m⟩, some { f with messages := rest },
        events ++ [HandleEvent.acquire (acquisitions events)])

/-- The call `codes_handle_delete(h)`. -/
def codes_handle_delete {α : Type} (h : codes_handle α) (events : List HandleEvent) :
    List HandleEvent :=
  events ++ [HandleEvent.release h.id]

/-- The call `codes_count_in_file(nullptr, file, &n)`: writes `n` only on success. -/
def codes_count_in_file {α : Type} (file : Option (GribFile α)) (n : Int) : Int :=
  match file with
  | none => n
  | some f => f.count

/-- The call `codes_get_string(h, key, buffer, &size)`: writes `buffer` only when the key is
there and its value, counted in bytes, fits `size` bytes with the terminating zero. -/
def codes_get_string {α : Type} (h : Option (codes_handle α)) (key : String) (buffer : String)
    (size : Nat) : CodesStatus × String :=
  match h with
  | none => (CodesStatus.null_handle, buffer)
  | some h =>
    match h.message.strings.lookup key with
    | none => (CodesStatus.not_found, buffer)
    | some v => if v.utf8ByteSize < size then (CodesStatus.success, v)
                else (CodesStatus.buffer_too_small, buffer)

/-- The call `codes_get_long(h, key, &value)`: writes `value` only when the key is there. -/
def codes_get_long {α : Type} (h : Option (codes_handle α)) (key : String) (value : Int) :
    CodesStatus × Int :=
  match h with
  | none => (CodesStatus.null_handle, value)
  | some h =>
    match h.message.longs.lookup key with
    | none => (CodesStatus.not_found, value)
    | some v => (CodesStatus.success, v)

/-- The call `codes_get_size(h, key, &size)`; the payload is the only array key modelled. -/
def codes_get_size {α : Type} (h : Option (codes_handle α)) (key : String) (size : Nat) :
    CodesStatus × Nat :=
  match h with
  | none => (CodesStatus.null_handle, size)
  | some h => if key = "values" then (CodesStatus.success, h.message.values.length)
              else (CodesStatus.not_found, size)

/-- The call `codes_get_double_array(h, key, values, &size)`: when the payload fits in `size`
elements it is copied to the front of `values` and the rest of `values` is left as it was.
Returns the status and the array. -/
def codes_get_double_array {α : Type} (h : Option (codes_handle α)) (key : String)
    (values : List α) (size : Nat) : CodesStatus × List α :=
  match h with
  | none => (CodesStatus.null_handle, values)
  | some h =>
    if key = "values" then
      if h.message.values.length ≤ size then
        (CodesStatus.success, h.message.values ++ values.drop h.message.values.length)
      else (CodesStatus.array_too_small, values)
    else (CodesStatus.not_found, values)

/-- The overload `std::to_string(long)`: the decimal numeral, with a leading minus
for a negative value. -/
def to_string (v : Int) : String := toString v

/-- The overload `std::to_string(size_t)`: the decimal numeral. -/
def to_string_size_t (n : Nat) : String := toString n

/-- Value of a decimal numeral, most significant digit first. -/
def decimalValue (l : List Char) : Nat :=
  l.foldl (fun acc c => acc * 10 + (c.toNat - 48)) 0

/-! ## GribFileReader (main.cc lines 19-107) -/

/-- The class `GribFileReader`; `events` is the log of handle acquisitions and releases.
The members `count_` and `index_` are of type `int`; `index_` is only ever incremented while
it differs from `count_`. -/
structure GribFileReader (α : Type) where
  file_ : Option (GribFile α)
  grib_ : Option (codes_handle α)
  count_ : Int
  index_ : Int
  events : List HandleEvent

namespace GribFileReader

variable {α : Type}

/-- The constructor `GribFileReader(path)`. -/
def GribFileReader (fs : String → PathStatus α) (path : String) :
    Except Exit (Grib2Atlas.GribFileReader α) :=
  match fs path with
  | PathStatus.missing => Except.error ⟨path ++ " does not exist", 1⟩
  | PathStatus.unopenable => Except.error ⟨"Could not open file " ++ path, 1⟩
  | PathStatus.readable f =>
    let file_ := some f
    let count_ := codes_count_in_file file_ 0
    let acquired := codes_handle_new_from_file file_ []
    match acquired.1 with
    | none => Except.error ⟨"Could not create grib handle. Error: ", 1⟩
    | some h =>
      Except.ok { file_ := acquired.2.1, grib_ := some h, count_ := count_, index_ := 1,
                  events := acquired.2.2 }

/-- The destructor `~GribFileReader()`. -/
def destructor (r : Grib2Atlas.GribFileReader α) : Grib2Atlas.GribFileReader α :=
  let events := match r.grib_ with
    | some h => codes_handle_delete h r.events
    | none => r.events
  { r with events := events, file_ := none }

/-- The method `get_values_size()`. -/
def get_values_size (r : Grib2Atlas.GribFileReader α) (u : Indeterminate) : Nat :=
  (codes_get_size r.grib_ "values" u.size).2

/-- The method `get_values(values, size)`; returns the array after the call. -/
def get_values (r : Grib2Atlas.GribFileReader α) (u : Indeterminate) (values : List α)
    (size : Nat) : Except Exit (List α) :=
  if size < r.get_values_size u then
    Except.error ⟨"values[] has been allocated too small.", 1⟩
  else
    Except.ok (codes_get_double_array r.grib_ "values" values size).2

/-- The method `get_string(key)`. -/
def get_string (r : Grib2Atlas.GribFileReader α) (u : Indeterminate) (key : String) :
    Except Exit String :=
  let buffer := u.buffer
  let size := 64
  Except.ok (codes_get_string r.grib_ key buffer size).2

/-- The method `get_long(key)`. -/
def get_long (r : Grib2Atlas.GribFileReader α) (u : Indeterminate) (key : String) :
    Except Exit Int :=
  let value := u.value
  Except.ok (codes_get_long r.grib_ key value).2

/-- The method `get_gridname()`; `u key` holds the indeterminate locals of the accessor call
for `key` (each of the three keys is asked for at most once). -/
def get_gridname (r : Grib2Atlas.GribFileReader α) (u : String → Indeterminate) :
    Except Exit String := do
  let gridType ← r.get_string (u "gridType") "gridType"
  if gridType = "reduced_gg" then
    if (← r.get_long (u "isOctahedral") "isOctahedral") ≠ 0 then
      return "O" ++ to_string (← r.get_long (u "N") "N")
    else
      return "N" ++ to_string (← r.get_long (u "N") "N")
  else if gridType = "regular_gg" then
    return "F" ++ to_string (← r.get_long (u "N") "N")
  else
    return gridType

/-- The method `next_message()`: the outcome of the call (the returned flag, or the exit) and
the reader as the call leaves it. -/
def next_message (r : Grib2Atlas.GribFileReader α) :
    Except Exit Bool × Grib2Atlas.GribFileReader α :=
  if r.index_ = r.count_ then
    (Except.ok false, r)
  else
    let events := match r.grib_ with
      | some h => codes_handle_delete h r.events
      | none => r.events
    let acquired := codes_handle_new_from_file r.file_ events
    let r1 := { r with grib_ := acquired.1, file_ := acquired.2.1, events := acquired.2.2 }
    match acquired.1 with
    | none =>
      (Except.error ⟨"Could not create grib handle in next_message(). Error: ", 1⟩, r1)
    | some _ => (Except.ok true, { r1 with index_ := r1.index_ + 1 })

/-- The method `count()`. -/
def count (r : Grib2Atlas.GribFileReader α) : Int := r.count_

end GribFileReader

/-- The grid name policy table of the specification (section 4.2). -/
def gridNamePolicy (gridFamily : String) (isOctahedral : Bool) (N : Int) : String :=
  if gridFamily = "reduced_gg" ∧ isOctahedral = true then "O" ++ toString N
  else if gridFamily = "reduced_gg" ∧ isOctahedral = false then "N" ++ toString N
  else if gridFamily = "regular_gg" then "F" ++ toString N
  else gridFamily

/-! ## The atlas-io record (main.cc lines 111-171) -/

/-- A value stored in a record, with the type it was written as. -/
inductive Value (α : Type) where
  | string (s : String)
  | long (v : Int)
  | size_t (n : Nat)
  | array (a : List α)

/-- One item of a record: key, value and the compression asked for, if any. -/
structure Entry (α : Type) where
  key : String
  value : Value α
  compression : Option String

/-- The class `atlas::io::RecordWriter`: the items set so far, oldest first. -/
structure RecordWriter (α : Type) where
  entries : List (Entry α)

/-- The method `RecordWriter::set(key, value, config)`. -/
def RecordWriter.set {α : Type} (w : RecordWriter α) (key : String) (value : Value α)
    (compression : Option String) : RecordWriter α :=
  { entries := w.entries ++ [⟨key, value, compression⟩] }

/-- The body of `for (size_t jfld = 0; jfld < nfld; ++jfld)` in `convert_grib_to_atlas_io`,
run for the `nfld - jfld` iterations that remain; the state is the reader, the shared
buffer `values` and the record writer. The indeterminate locals of the accessor call for
`key` in iteration `jfld` are `u jfld key`. -/
def convert_fields {α : Type} (u : Nat → String → Indeterminate) :
    Nat → Nat → GribFileReader α → List α → RecordWriter α →
      Except Exit (GribFileReader α × List α × RecordWriter α)
  | 0, _, grib, values, atlas_io_writer => Except.ok (grib, values, atlas_io_writer)
  | remaining + 1, jfld, grib, values, atlas_io_writer => do
    let values ← grib.get_values (u jfld "values") values values.length
    let fieldname ← grib.get_string (u jfld "shortName") "shortName"
    let fielddesc ← grib.get_string (u jfld "name") "name"
    let level ← grib.get_long (u jfld "level") "level"
    let field := "fields[" ++ to_string_size_t jfld ++ "]"
    let w := atlas_io_writer.set (field ++ ".name") (Value.string fieldname) none
    let w := w.set (field ++ ".description") (Value.string fielddesc) none
    let w := w.set (field ++ ".level") (Value.long level) none
    let w := w.set (field ++ ".array") (Value.array values) (some "lz4")
    match grib.next_message with
    | (Except.error e, _) => Except.error e
    | (Except.ok _, grib) => convert_fields u remaining (jfld + 1) grib values w

/-- The function `convert_grib_to_atlas_io(grib_file, atlas_io_file)` on the process of the
given rank: the record written to `atlas_io_file`, `none` on the ranks that only wait at the
barrier. The count is converted from `int` to `size_t`. The indeterminate locals of the
accessor calls made before the loop are `u0 key`, those of the loop are `u jfld key`. -/
def convert_grib_to_atlas_io {α : Type} [Zero α] (rank : Nat) (u0 : String → Indeterminate)
    (u : Nat → String → Indeterminate) (fs : String → PathStatus α) (grib_file : String) :
    Except Exit (Option (RecordWriter α)) :=
  if rank = 0 then do
    let grib ← GribFileReader.GribFileReader fs grib_file
    let nfld := (grib.count % 2 ^ 64).toNat
    let gridname ← grib.get_gridname u0
    let atlas_io_writer : RecordWriter α := ⟨[]⟩
    let w := atlas_io_writer.set "grid.name" (Value.string gridname) (some "lz4")
    let w := w.set "fields.size" (Value.size_t nfld) none
    let values : List α := List.replicate (grib.get_values_size (u0 "values")) 0
    let done ← convert_fields u nfld 0 grib values w
    return some done.2.2
  else
    return none

/-- The class `AtlasIOFileReader`: the record read back from the file. -/
structure AtlasIOFileReader (α : Type) where
  record_ : List (Entry α)

namespace AtlasIOFileReader

variable {α : Type}

/-- The item stored under a key; of several items set under one key the last one counts. -/
def find (reader : AtlasIOFileReader α) (key : String) : Option (Entry α) :=
  reader.record_.reverse.find? fun e => decide (e.key = key)

/-- The call `read<std::string>(key)`; an absent key or another type throws. -/
def read_string (reader : AtlasIOFileReader α) (key : String) : Except String String :=
  match (reader.find key).map Entry.value with
  | some (Value.string s) => Except.ok s
  | _ => Except.error ("cannot read " ++ key)

/-- The call `read<long>(key)`; an absent key or another type throws. -/
def read_long (reader : AtlasIOFileReader α) (key : String) : Except String Int :=
  match (reader.find key).map Entry.value with
  | some (Value.long v) => Except.ok v
  | _ => Except.error ("cannot read " ++ key)

/-- The call `read<size_t>(key)`; an absent key or another type throws. -/
def read_size_t (reader : AtlasIOFileReader α) (key : String) : Except String Nat :=
  match (reader.find key).map Entry.value with
  | some (Value.size_t n) => Except.ok n
  | _ => Except.error ("cannot read " ++ key)

/-- The call `read(key, array)`; an absent key or another type throws. -/
def read_array (reader : AtlasIOFileReader α) (key : String) : Except String (List α) :=
  match (reader.find key).map Entry.value with
  | some (Value.array a) => Except.ok a
  | _ => Except.error ("cannot read " ++ key)

end AtlasIOFileReader

/-! ## The load loop of main (main.cc lines 233-251) -/

/-- The operations of the load loop that the ordering requirement is about. -/
inductive LoadOp where
  | read (i : Nat)
  | scatter (i : Nat) (name : String)
  | haloExchange (names : List String)
deriving DecidableEq, Repr

/-- A field added to the field set: its name and what its global array held on this process
when it was scattered (`none`: the array was never read into). -/
structure Field (α : Type) where
  name : String
  global : Option (List α)

/-- State of the load loop: the field set and the operations issued so far. -/
structure LoadState (α : Type) where
  fields : List (Field α)
  ops : List LoadOp

/-- The body of `for (size_t i = 0; i < field_size; ++i)` in `main`, run for the
`field_size - i` iterations that remain. -/
def main_load_fields {α : Type} (rank : Nat) (reader : AtlasIOFileReader α) :
    Nat → Nat → LoadState α → Except String (LoadState α)
  | 0, _, st => Except.ok st
  | remaining + 1, i, st => do
    let pfx := "fields[" ++ to_string_size_t i ++ "]"
    let level ← reader.read_long (pfx ++ ".level")
    let name := (← reader.read_string (pfx ++ ".name")) ++ "[" ++ to_string level ++ "]"
    let read ← (if rank = 0 then do
        let array ← reader.read_array (pfx ++ ".array")
        pure (some array, st.ops ++ [LoadOp.read i])
      else pure (none, st.ops) : Except String (Option (List α) × List LoadOp))
    let ops := read.2 ++ [LoadOp.scatter i name]
    main_load_fields rank reader remaining (i + 1)
      { fields := st.fields ++ [⟨name, read.1⟩], ops := ops }

/-- Lines 233-251 of `main`: the field loop and the halo exchange that follows it. -/
def main_load {α : Type} (rank : Nat) (reader : AtlasIOFileReader α) :
    Except String (LoadState α) := do
  let field_size ← reader.read_size_t "fields.size"
  let st ← main_load_fields rank reader field_size 0 ⟨[], []⟩
  return { st with ops := st.ops ++ [LoadOp.haloExchange (st.fields.map Field.name)] }

/-! ## CommandLineOptions (main.cc lines 175-207) -/

/-- The struct `CommandLineOptions` with its default member initialisers. -/
structure CommandLineOptions where
  gmsh : Bool
  gmsh_file : String
  gmsh_coordinates : String
  atlas_io_file : String
  grib_file : String
deriving DecidableEq, Repr

/-- The default member initialisers. -/
def CommandLineOptions.defaults : CommandLineOptions :=
  { gmsh := false, gmsh_file := "out.msh", gmsh_coordinates := "xy",
    atlas_io_file := "out.atlas", grib_file := "in.grib" }

/-- The lambda `get_opt(opt, value)`; `c` is captured by reference, so the new `c` is
returned next to the new `value`. Here `argc` is the length of `argv`. -/
def get_opt (argv : List String) (c : Nat) (opt : String) (value : String) : Nat × String :=
  let arg := argv.getD c ""
  if arg = opt then
    if (c : Int) < (argv.length : Int) - 1 then
      if arg.get 0 ≠ '-' then
        (c + 1, argv.getD (c + 1) "")
      else (c, value)
    else (c, value)
  else (c, value)

/-- The loop `for (c = 1; c < argc; ++c)` of the constructor, entered at `c`. -/
def CommandLineOptions.parse_from (argv : List String) (c : Nat) (o : CommandLineOptions) :
    CommandLineOptions :=
  if c < argv.length then
    if c = 1 then
      CommandLineOptions.parse_from argv (c + 1) { o with grib_file := argv.getD c "" }
    else
      let gmsh := if argv.getD c "" = "--gmsh" then true else o.gmsh
      let o1 := get_opt argv c "-o" o.atlas_io_file
      let o2 := get_opt argv o1.1 "--output" o1.2
      let o3 := get_opt argv o2.1 "--gmsh" o.gmsh_file
      let o4 := get_opt argv o3.1 "--coordinates" o.gmsh_coordinates
      CommandLineOptions.parse_from argv (o4.1 + 1)
        { o with gmsh := gmsh, atlas_io_file := o2.2, gmsh_file := o3.2,
                 gmsh_coordinates := o4.2 }
  else o
termination_by argv.length - c
decreasing_by
  · omega
  · have ge : ∀ (k : Nat) (opt value : String), k ≤ (get_opt argv k opt value).1 := by
      intro k opt value
      unfold get_opt
      dsimp only
      split_ifs <;> simp
    have h1 := ge c "-o" o.atlas_io_file
    have h2 := ge (get_opt argv c "-o" o.atlas_io_file).1 "--output"
      (get_opt argv c "-o" o.atlas_io_file).2
    have h3 := ge (get_opt argv (get_opt argv c "-o" o.atlas_io_file).1
      "--output" (get_opt argv c "-o" o.atlas_io_file).2).1 "--gmsh" o.gmsh_file
    have h4 := ge (get_opt argv (get_opt argv (get_opt argv c "-o"
      o.atlas_io_file).1 "--output" (get_opt argv c "-o" o.atlas_io_file).2).1 "--gmsh"
      o.gmsh_file).1 "--coordinates" o.gmsh_coordinates
    omega

/-- The constructor `CommandLineOptions(argc, argv)`, with `argc` the length of `argv`. -/
def CommandLineOptions.CommandLineOptions (argv : List String) : CommandLineOptions :=
  CommandLineOptions.parse_from argv 1 CommandLineOptions.defaults

/-! ## States of the reader -/

/-- Readers that a program can hold: the one the constructor returns, and the ones that calls
of `next_message` which return to the caller lead to. -/
inductive Reachable {α : Type} (fs : String → PathStatus α) (path : String) :
    GribFileReader α → Prop where
  | constructed (r : GribFileReader α)
      (h : GribFileReader.GribFileReader fs path = Except.ok r) : Reachable fs path r
  | advanced (r : GribFileReader α) (b : Bool) (hr : Reachable fs path r)
      (h : r.next_message.1 = Except.ok b) : Reachable fs path r.next_message.2

/-- The event log after `k` successful calls of `next_message`. -/
def handleTrace : Nat → List HandleEvent
  | 0 => [HandleEvent.acquire 0]
  | k + 1 => handleTrace k ++ [HandleEvent.release k, HandleEvent.acquire (k + 1)]

/-- The reader holds handle `k` and its log is the log of `k` successful advances. -/
def Disciplined {α : Type} (r : GribFileReader α) : Prop :=
  ∃ k m, r.grib_ = some ⟨k, m⟩ ∧ r.events = handleTrace k

/-- The reader that holds the head of `l` as message number `j` (counted from 0) of a stream
whose unread remainder is the tail of `l`. -/
def readerOn {α : Type} (count : Int) (j : Nat) (l : List (Message α)) : GribFileReader α :=
  { file_ := some ⟨count, l.tail.map some⟩, grib_ := l.head?.map fun m => ⟨j, m⟩,
    count_ := count, index_ := j + 1, events := handleTrace j }

/-- The reader after `n` further calls of `next_message`. -/
def after_calls {α : Type} (n : Nat) (r : GribFileReader α) : GribFileReader α :=
  Nat.iterate (fun s => s.next_message.2) n r

/-- A file system with one readable GRIB file, of the given messages, at `in.grib`. -/
def oneFile {α : Type} (ms : List (Message α)) : String → PathStatus α :=
  fun path => if path = "in.grib" then PathStatus.readable ⟨ms.length, ms.map some⟩
    else PathStatus.missing

/-! ## The record that the export produces -/

/-- What `get_string(key)` returns while `m` is the current message. -/
def Message.string {α : Type} (m : Message α) (u : Indeterminate) (key : String) : String :=
  (codes_get_string (some ⟨0, m⟩) key u.buffer 64).2

/-- What `get_long(key)` returns while `m` is the current message. -/
def Message.long {α : Type} (m : Message α) (u : Indeterminate) (key : String) : Int :=
  (codes_get_long (some ⟨0, m⟩) key u.value).2

/-- The key `fields[i]` followed by a member name. -/
def fieldKey (i : Nat) (member : String) : String :=
  "fields[" ++ toString i ++ "]" ++ member

/-- The four items that describe message `m` as field number `jfld`. -/
def fieldEntries {α : Type} (u : String → Indeterminate) (jfld : Nat) (m : Message α) :
    List (Entry α) :=
  [⟨fieldKey jfld ".name", Value.string (m.string (u "shortName") "shortName"), none⟩,
   ⟨fieldKey jfld ".description", Value.string (m.string (u "name") "name"), none⟩,
   ⟨fieldKey jfld ".level", Value.long (m.long (u "level") "level"), none⟩,
   ⟨fieldKey jfld ".array", Value.array m.values, some "lz4"⟩]

/-- The items of the messages `ms`, numbered from `jfld` on, in file order. -/
def fieldsEntries {α : Type} (u : Nat → String → Indeterminate) :
    Nat → List (Message α) → List (Entry α)
  | _, [] => []
  | jfld, m :: ms => fieldEntries (u jfld) jfld m ++ fieldsEntries u (jfld + 1) ms

/-- The whole record for the messages `ms`: grid name, field count, then the fields. -/
def recordOf {α : Type} (u0 : String → Indeterminate) (u : Nat → String → Indeterminate)
    (ms : List (Message α)) : List (Entry α) :=
  [⟨"grid.name", Value.string
      (gridNamePolicy
        ((ms.head?.map fun m => m.string (u0 "gridType") "gridType").getD
          (u0 "gridType").buffer)
        (decide ((ms.head?.map fun m => m.long (u0 "isOctahedral") "isOctahedral").getD
          (u0 "isOctahedral").value ≠ 0))
        ((ms.head?.map fun m => m.long (u0 "N") "N").getD (u0 "N").value)), some "lz4"⟩,
   ⟨"fields.size", Value.size_t ms.length, none⟩] ++ fieldsEntries u 0 ms

/-! ## The order of the load phases -/

/-- The phase order that the specification asks of the load loop, for the fields numbered
from `i` on: for each field in turn the read of its global array, on rank 0 only, and then
its scatter. -/
def phaseOrder (rank : Nat) : Nat → List String → List LoadOp
  | _, [] => []
  | i, name :: names =>
    (if rank = 0 then [LoadOp.read i] else []) ++ [LoadOp.scatter i name] ++
      phaseOrder rank (i + 1) names

/-- The scatters of the fields numbered from `i` on, in index order. -/
def scatters : Nat → List String → List LoadOp
  | _, [] => []
  | i, name :: names => LoadOp.scatter i name :: scatters (i + 1) names

/-- The collective operations: every process has to issue them in the same order. -/
def isCollective : LoadOp → Bool
  | LoadOp.read _ => false
  | LoadOp.scatter _ _ => true
  | LoadOp.haloExchange _ => true

/-- The name that the load loop gives to a field: short name, then the level in brackets. -/
def loadedName (level : Int) (name : String) : String :=
  name ++ "[" ++ to_string level ++ "]"

/-! ## Sample inputs -/

/-- A reader whose current message is `m`, at ordinal 1 of a stream of one message. -/
def sampleReader {α : Type} (m : Message α) : GribFileReader α :=
  { file_ := some ⟨1, []⟩, grib_ := some ⟨0, m⟩, count_ := 1, index_ := 1,
    events := [HandleEvent.acquire 0] }

/-- A message that carries the grid keys only. -/
def gridMessage (gridType : String) (isOctahedral N : Int) : Message Nat :=
  { strings := [("gridType", gridType)], longs := [("isOctahedral", isOctahedral), ("N", N)],
    values := [] }

/-- A message with the field keys and a payload. -/
def fieldMessage (shortName name : String) (level : Int) (values : List Rat) : Message Rat :=
  { strings := [("gridType", "regular_gg"), ("shortName", shortName), ("name", name)],
    longs := [("isOctahedral", 0), ("N", 128), ("level", level)], values := values }

/-- The two messages of the end-to-end scenario of the specification. -/
def scenario : List (Message Rat) :=
  [fieldMessage "t" "Temperature" 850 [1.0, 2.0, 3.0],
   fieldMessage "u" "U component of wind" 500 [4.0, 5.0, 6.0]]

/-- The level, short name and payload of the two fields of the scenario. -/
def scenarioFields : List (Int × String × List Rat) :=
  [(850, "t", [1.0, 2.0, 3.0]), (500, "u", [4.0, 5.0, 6.0])]

/-- A message without any key, with a payload of three values. -/
def bareMessage : Message Nat :=
  { strings := [], longs := [], values := [7, 8, 9] }

/-- Indeterminate locals used in the samples. -/
def sampleLocals : Indeterminate :=
  { buffer := "?", value := 42, size := 5 }

/-- The same indeterminate locals for every accessor call made outside the field loop. -/
def sampleLeftovers : String → Indeterminate :=
  fun _ => sampleLocals

/-- The same indeterminate locals for every accessor call of the field loop. -/
def sampleLoopLeftovers : Nat → String → Indeterminate :=
  fun _ _ => sampleLocals

/-- A string of 64 bytes: one more than `get_string` can take. -/
def longText : String :=
  "0123456789012345678901234567890123456789012345678901234567890123"

/-- A string of 40 characters that takes 80 bytes. -/
def accentedText : String :=
  "éééééééééééééééééééééééééééééééééééééééé"

/-- A stream of one message whose `name` is 64 bytes long. -/
def longNameStream : List (Message Rat) :=
  [fieldMessage "t" longText 850 [1.0, 2.0, 3.0]]

/-- A stream of one message whose `shortName` is 64 bytes long. -/
def longShortNameStream : List (Message Rat) :=
  [fieldMessage longText "Temperature" 850 [1.0, 2.0, 3.0]]

/-! ## Decimal numerals -/

theorem digitChar_spec (k : Nat) (hk : k < 10) :
    (Nat.digitChar k).isDigit = true ∧ (Nat.digitChar k).toNat - 48 = k ∧ Nat.digitChar k ≠ ']' ∧ Nat.digitChar k ≠ '-' := by
  interval_cases k <;> decide

theorem toDigitsCore_spec : ∀ (fuel n : Nat) (ds : List Char), n < fuel →
    ∃ pre, Nat.toDigitsCore 10 fuel n ds = pre ++ ds ∧ pre ≠ [] ∧
      (∀ c ∈ pre, c ≠ ']' ∧ c ≠ '-') ∧ decimalValue pre = n := by
  intro fuel
  induction fuel with
  | zero => intro n ds h; omega
  | succ fuel ih =>
    intro n ds h
    have hd := digitChar_spec (n % 10) (Nat.mod_lt _ (by norm_num))
    unfold Nat.toDigitsCore
    by_cases h0 : n / 10 = 0
    · refine ⟨[Nat.digitChar (n % 10)], by simp [h0], by simp, ?_, ?_⟩
      · intro c hc
        simp at hc
        subst hc
        exact ⟨hd.2.2.1, hd.2.2.2⟩
      · simp [decimalValue, hd.2.1]
        omega
    · obtain ⟨pre, h1, _, h3, h4⟩ := ih (n / 10) (Nat.digitChar (n % 10) :: ds) (by omega)
      refine ⟨pre ++ [Nat.digitChar (n % 10)], by simp [h0, h1], by simp, ?_, ?_⟩
      · intro c hc
        rcases List.mem_append.1 hc with hc | hc
        · exact h3 c hc
        · simp at hc
          subst hc
          exact ⟨hd.2.2.1, hd.2.2.2⟩
      · unfold decimalValue at h4 ⊢
        rw [List.foldl_append, h4]
        simp [hd.2.1]
        omega

theorem repr_spec (n : Nat) :
    (toString n).data ≠ [] ∧ (∀ c ∈ (toString n).data, c ≠ ']' ∧ c ≠ '-') ∧
      decimalValue (toString n).data = n := by
  obtain ⟨pre, h1, h2, h3, h4⟩ := toDigitsCore_spec (n + 1) n [] (by omega)
  have : (toString n).data = pre := by
    show (Nat.repr n).data = pre
    simp [Nat.repr, Nat.toDigits, h1, List.asString]
  rw [this]
  exact ⟨h2, h3, h4⟩

theorem toString_nat_injective {n m : Nat} (h : toString n = toString m) : n = m := by
  have hn := (repr_spec n).2.2
  have hm := (repr_spec m).2.2
  rw [h] at hn
  omega

theorem toString_int_injective {a b : Int} (h : toString a = toString b) : a = b := by
  have key : ∀ (m : Nat), toString (Int.negSucc m) = "-" ++ toString (m + 1) := fun m => rfl
  have key2 : ∀ (m : Nat), toString (Int.ofNat m) = toString m := fun m => rfl
  have hne : ∀ (n m : Nat), toString n ≠ "-" ++ toString m := by
    intro n m hnm
    have h1 := congrArg String.data hnm
    rw [String.data_append] at h1
    have h2 := (repr_spec n).2.1 '-' (by rw [h1]; simp)
    exact h2.2 rfl
  cases a with
  | ofNat n =>
    cases b with
    | ofNat m =>
      rw [key2, key2] at h
      rw [toString_nat_injective h]
    | negSucc m =>
      rw [key2, key] at h
      exact absurd h (hne _ _)
  | negSucc n =>
    cases b with
    | ofNat m =>
      rw [key2, key] at h
      exact absurd h.symm (hne _ _)
    | negSucc m =>
      rw [key, key] at h
      have h1 := congrArg String.data h
      simp only [String.data_append, List.append_cancel_left_eq] at h1
      have := toString_nat_injective (String.ext h1)
      have : n = m := by omega
      rw [this]

/-! ## The accessors -/

section Accessors

variable {α : Type}

theorem get_string_ok (r : GribFileReader α) (u : Indeterminate) (key : String) :
    r.get_string u key = Except.ok (codes_get_string r.grib_ key u.buffer 64).2 := rfl

theorem get_long_ok (r : GribFileReader α) (u : Indeterminate) (key : String) :
    r.get_long u key = Except.ok (codes_get_long r.grib_ key u.value).2 := rfl

/-- The grid name in terms of what the three accessors return. -/
theorem get_gridname_eq (r : GribFileReader α) (u : String → Indeterminate) :
    r.get_gridname u = Except.ok
      (gridNamePolicy (codes_get_string r.grib_ "gridType" (u "gridType").buffer 64).2
        (decide ((codes_get_long r.grib_ "isOctahedral" (u "isOctahedral").value).2 ≠ 0))
        (codes_get_long r.grib_ "N" (u "N").value).2) := by
  unfold GribFileReader.get_gridname gridNamePolicy to_string
  simp only [get_string_ok, get_long_ok]
  by_cases h1 : (codes_get_string r.grib_ "gridType" (u "gridType").buffer 64).2 = "reduced_gg"
  · by_cases h2 : (codes_get_long r.grib_ "isOctahedral" (u "isOctahedral").value).2 = 0
    · simp [h1, h2, bind, Except.bind, pure, Except.pure]
    · simp [h1, h2, bind, Except.bind, pure, Except.pure]
  · by_cases h3 :
        (codes_get_string r.grib_ "gridType" (u "gridType").buffer 64).2 = "regular_gg"
    · simp [h1, h3, bind, Except.bind, pure, Except.pure]
    · simp [h1, h3, bind, Except.bind, pure, Except.pure]

end Accessors

/-- C1: whatever the accessors return for `gridType`, `isOctahedral` and `N`, `get_gridname`
returns the entry of the policy table: `O` and the decimal of `N` for `reduced_gg` with a
non-zero `isOctahedral`, `N` and the decimal of `N` for `reduced_gg` with a zero one, `F` and
the decimal of `N` for `regular_gg`, and `gridType` itself for every other `gridType`. -/
theorem get_gridname_matches_policy {α : Type} (r : GribFileReader α)
    (u : String → Indeterminate) (gridType : String) (isOctahedral N : Int)
    (hT : r.get_string (u "gridType") "gridType" = Except.ok gridType)
    (hO : r.get_long (u "isOctahedral") "isOctahedral" = Except.ok isOctahedral)
    (hN : r.get_long (u "N") "N" = Except.ok N) :
    r.get_gridname u = Except.ok (gridNamePolicy gridType (decide (isOctahedral ≠ 0)) N) ∧
    (gridType = "reduced_gg" → isOctahedral ≠ 0 →
      r.get_gridname u = Except.ok ("O" ++ toString N)) ∧
    (gridType = "reduced_gg" → isOctahedral = 0 →
      r.get_gridname u = Except.ok ("N" ++ toString N)) ∧
    (gridType = "regular_gg" → r.get_gridname u = Except.ok ("F" ++ toString N)) ∧
    (gridType ≠ "reduced_gg" → gridType ≠ "regular_gg" →
      r.get_gridname u = Except.ok gridType) := by
  rw [get_string_ok] at hT
  rw [get_long_ok] at hO hN
  injection hT with hT
  injection hO with hO
  injection hN with hN
  rw [get_gridname_eq, hT, hO, hN]
  refine ⟨rfl, ?_, ?_, ?_, ?_⟩
  · intro h1 h2
    simp [gridNamePolicy, h1, h2]
  · intro h1 h2
    simp [gridNamePolicy, h1, h2]
  · intro h1
    simp [gridNamePolicy, h1]
  · intro h1 h2
    simp [gridNamePolicy, h1, h2]

/-- C1, on the four sample rows of the specification: `O1280`, `N640`, `F640` and
`rotated_ll`. -/
theorem get_gridname_matches_policy_witness :
    (sampleReader (gridMessage "reduced_gg" 1 1280)).get_gridname sampleLeftovers
        = Except.ok "O1280" ∧
    (sampleReader (gridMessage "reduced_gg" 0 640)).get_gridname sampleLeftovers
        = Except.ok "N640" ∧
    (sampleReader (gridMessage "regular_gg" 1 640)).get_gridname sampleLeftovers
        = Except.ok "F640" ∧
    (sampleReader (gridMessage "rotated_ll" 1 3)).get_gridname sampleLeftovers
        = Except.ok "rotated_ll" :=
  ⟨(get_gridname_matches_policy (sampleReader (gridMessage "reduced_gg" 1 1280)) sampleLeftovers
      "reduced_gg" 1 1280 rfl rfl rfl).1.trans rfl,
   (get_gridname_matches_policy (sampleReader (gridMessage "reduced_gg" 0 640)) sampleLeftovers
      "reduced_gg" 0 640 rfl rfl rfl).1.trans rfl,
   (get_gridname_matches_policy (sampleReader (gridMessage "regular_gg" 1 640)) sampleLeftovers
      "regular_gg" 1 640 rfl rfl rfl).1.trans rfl,
   (get_gridname_matches_policy (sampleReader (gridMessage "rotated_ll" 1 3)) sampleLeftovers
      "rotated_ll" 1 3 rfl rfl rfl).1.trans rfl⟩

/-- The grid name of a recognised family splits into its letter and the decimal of `N`. -/
theorem gridNamePolicy_injective (g g' : String) (o o' : Bool) (n n' : Int)
    (hg : g = "reduced_gg" ∨ g = "regular_gg") (hg' : g' = "reduced_gg" ∨ g' = "regular_gg")
    (h : gridNamePolicy g o n = gridNamePolicy g' o' n') :
    g = g' ∧ n = n' ∧ (g = "reduced_gg" → o = o') := by
  have tail : ∀ (c d : Char) (s t : String),
      String.mk [c] ++ s = String.mk [d] ++ t → c = d ∧ s = t := by
    intro c d s t hst
    have h1 := congrArg String.data hst
    simp only [String.data_append, List.singleton_append, List.cons.injEq] at h1
    exact ⟨h1.1, String.ext h1.2⟩
  rcases hg with rfl | rfl <;> rcases hg' with rfl | rfl <;> cases o <;> cases o' <;>
    simp [gridNamePolicy] at h <;>
    first
    | exact ⟨rfl, toString_int_injective (tail _ _ _ _ h).2, fun _ => rfl⟩
    | exact absurd (tail _ _ _ _ h).1 (by decide)
    | exact ⟨rfl, toString_int_injective (tail _ _ _ _ h).2, fun hc => absurd hc (by decide)⟩

/-- C10: for two metadata tuples of the recognised families `reduced_gg` and `regular_gg`, equal
grid names force equal `gridType`, equal `N` and, for `reduced_gg`, `isOctahedral` flags that
are both zero or both non-zero. -/
theorem get_gridname_lossless {α : Type} (r r' : GribFileReader α)
    (u v : String → Indeterminate)
    (gridType gridType' : String) (isOctahedral isOctahedral' N N' : Int)
    (hT : r.get_string (u "gridType") "gridType" = Except.ok gridType)
    (hO : r.get_long (u "isOctahedral") "isOctahedral" = Except.ok isOctahedral)
    (hN : r.get_long (u "N") "N" = Except.ok N)
    (hT' : r'.get_string (v "gridType") "gridType" = Except.ok gridType')
    (hO' : r'.get_long (v "isOctahedral") "isOctahedral" = Except.ok isOctahedral')
    (hN' : r'.get_long (v "N") "N" = Except.ok N')
    (hfam : gridType = "reduced_gg" ∨ gridType = "regular_gg")
    (hfam' : gridType' = "reduced_gg" ∨ gridType' = "regular_gg")
    (h : r.get_gridname u = r'.get_gridname v) :
    gridType = gridType' ∧ N = N' ∧
      (gridType = "reduced_gg" → (isOctahedral = 0 ↔ isOctahedral' = 0)) := by
  rw [get_string_ok] at hT hT'
  rw [get_long_ok] at hO hN hO' hN'
  injection hT with hT
  injection hO with hO
  injection hN with hN
  injection hT' with hT'
  injection hO' with hO'
  injection hN' with hN'
  rw [get_gridname_eq, get_gridname_eq, hT, hO, hN, hT', hO', hN'] at h
  injection h with h
  obtain ⟨h1, h2, h3⟩ := gridNamePolicy_injective _ _ _ _ _ _ hfam hfam' h
  refine ⟨h1, h2, fun hr => ?_⟩
  have h4 := h3 hr
  simp only [ne_eq, decide_not, Bool.not_eq_eq_eq_not, Bool.not_not, decide_eq_decide] at h4
  exact h4

/-- C10 on two readers that both hold an octahedral reduced grid of resolution 1280. -/
theorem get_gridname_lossless_witness :
    "reduced_gg" = "reduced_gg" ∧ (1280 : Int) = 1280 ∧
      ("reduced_gg" = "reduced_gg" → ((1 : Int) = 0 ↔ (2 : Int) = 0)) :=
  get_gridname_lossless (sampleReader (gridMessage "reduced_gg" 1 1280))
    (sampleReader (gridMessage "reduced_gg" 2 1280)) sampleLeftovers sampleLeftovers
    "reduced_gg" "reduced_gg" 1 2 1280 1280 rfl rfl rfl rfl rfl rfl
    (Or.inl rfl) (Or.inl rfl) rfl

/-- C5: `get_values` terminates with the diagnostic `values[] has been allocated too small.`
exactly when the size handed in is smaller than `get_values_size()`; in that case nothing is
read, and otherwise the call returns with the payload of the current message at the front of
the buffer and the rest of the buffer untouched. -/
theorem get_values_BufferTooSmall_iff {α : Type} (r : GribFileReader α) (u : Indeterminate)
    (values : List α) (size : Nat) :
    ((∃ e, r.get_values u values size = Except.error e) ↔ size < r.get_values_size u) ∧
    (size < r.get_values_size u → r.get_values u values size =
      Except.error ⟨"values[] has been allocated too small.", 1⟩) ∧
    (r.get_values_size u ≤ size → r.get_values u values size =
      Except.ok (codes_get_double_array r.grib_ "values" values size).2) ∧
    (∀ h, r.grib_ = some h →
      r.get_values_size u = h.message.values.length ∧
      (h.message.values.length ≤ size → ∃ out, r.get_values u values size = Except.ok out ∧
        out.take h.message.values.length = h.message.values ∧
        out.drop h.message.values.length = values.drop h.message.values.length)) := by
  refine ⟨?_, ?_, ?_, ?_⟩
  · unfold GribFileReader.get_values
    by_cases hs : size < r.get_values_size u
    · simp [hs]
    · simp [hs]
  · intro hs
    simp [GribFileReader.get_values, hs]
  · intro hs
    simp [GribFileReader.get_values, Nat.not_lt.2 hs]
  · intro h hh
    have hsize : r.get_values_size u = h.message.values.length := by
      simp [GribFileReader.get_values_size, codes_get_size, hh]
    refine ⟨hsize, fun hs => ?_⟩
    refine ⟨h.message.values ++ values.drop h.message.values.length, ?_, by simp, by simp⟩
    simp [GribFileReader.get_values, hsize, Nat.not_lt.2 hs, codes_get_double_array, hh, hs]

/-- C5 on a message of three values: a buffer of two is refused, a buffer of four is filled
from the front. -/
theorem get_values_BufferTooSmall_iff_witness :
    (sampleReader bareMessage).get_values sampleLocals [0, 0] 2 =
      Except.error ⟨"values[] has been allocated too small.", 1⟩ ∧
    (sampleReader bareMessage).get_values sampleLocals [1, 2, 3, 4] 4 =
      Except.ok [7, 8, 9, 4] :=
  ⟨(get_values_BufferTooSmall_iff (sampleReader bareMessage) sampleLocals [0, 0] 2).2.1
      (by decide),
   ((get_values_BufferTooSmall_iff (sampleReader bareMessage) sampleLocals [1, 2, 3, 4]
      4).2.2.1 (by decide)).trans rfl⟩

/-- C6 fails as stated: on a message without the key `level` the decoder reports the key as
absent, and `get_string` and `get_long` still return to the caller, handing back their
uninitialised local; neither terminates. -/
theorem accessors_return_on_absent_key :
    (codes_get_string (sampleReader bareMessage).grib_ "level" sampleLocals.buffer 64).1
      = CodesStatus.not_found ∧
    (codes_get_long (sampleReader bareMessage).grib_ "level" sampleLocals.value).1
      = CodesStatus.not_found ∧
    (sampleReader bareMessage).get_string sampleLocals "level" = Except.ok "?" ∧
    (sampleReader bareMessage).get_long sampleLocals "level" = Except.ok 42 ∧
    ¬ (∃ e, (sampleReader bareMessage).get_string sampleLocals "level" = Except.error e) ∧
    ¬ (∃ e, (sampleReader bareMessage).get_long sampleLocals "level" = Except.error e) := by
  refine ⟨rfl, rfl, rfl, rfl, ?_, ?_⟩
  · rintro ⟨e, he⟩
    rw [get_string_ok] at he
    exact Except.noConfusion he
  · rintro ⟨e, he⟩
    rw [get_long_ok] at he
    exact Except.noConfusion he

/-- C6 as amended: `get_string` and `get_long` never terminate the process, whatever the
decoder reports; they return the value of the decoder when the key is there (for a string,
when its UTF-8 encoding is at most 63 bytes long, so that it fits the 64 byte buffer with
the terminating zero), and the status of the decoder is discarded. -/
theorem accessors_never_fail {α : Type} (r : GribFileReader α) (u : Indeterminate)
    (key : String) :
    (∃ s, r.get_string u key = Except.ok s) ∧ (∃ v, r.get_long u key = Except.ok v) ∧
    (∀ h s, r.grib_ = some h → h.message.strings.lookup key = some s →
      s.utf8ByteSize < 64 → r.get_string u key = Except.ok s) ∧
    (∀ h v, r.grib_ = some h → h.message.longs.lookup key = some v →
      r.get_long u key = Except.ok v) := by
  refine ⟨⟨_, get_string_ok r u key⟩, ⟨_, get_long_ok r u key⟩, ?_, ?_⟩
  · intro h s hh hs hlen
    simp [get_string_ok, codes_get_string, hh, hs, hlen]
  · intro h v hh hv
    simp [get_long_ok, codes_get_long, hh, hv]

/-- The buffer of `get_string` is measured in bytes: a value of 40 characters that takes 80
bytes is not handed back, the caller gets what the buffer held before. -/
theorem get_string_counts_bytes :
    accentedText.length = 40 ∧ accentedText.utf8ByteSize = 80 ∧
    (codes_get_string (sampleReader (fieldMessage accentedText "n" 1 [])).grib_ "shortName"
      sampleLocals.buffer 64).1 = CodesStatus.buffer_too_small ∧
    (sampleReader (fieldMessage accentedText "n" 1 [])).get_string sampleLocals "shortName"
      = Except.ok "?" :=
  ⟨by decide, by decide, rfl, rfl⟩

/-- C6 as amended, on a message that has the keys asked for. -/
theorem accessors_never_fail_witness :
    (sampleReader (gridMessage "regular_gg" 0 128)).get_string sampleLocals "gridType"
      = Except.ok "regular_gg" ∧
    (sampleReader (gridMessage "regular_gg" 0 128)).get_long sampleLocals "N"
      = Except.ok 128 :=
  ⟨(accessors_never_fail (sampleReader (gridMessage "regular_gg" 0 128)) sampleLocals
      "gridType").2.2.1 _ "regular_gg" rfl rfl (by decide),
   (accessors_never_fail (sampleReader (gridMessage "regular_gg" 0 128)) sampleLocals
      "N").2.2.2 _ 128 rfl rfl⟩

/-! ## The handle discipline of the reader -/

section Handles

variable {α : Type}

theorem acquisitions_handleTrace (k : Nat) : acquisitions (handleTrace k) = k + 1 := by
  induction k with
  | zero => rfl
  | succ k ih =>
    unfold acquisitions at ih ⊢
    simp [handleTrace, List.countP_append, ih, List.countP_cons]

theorem live_handleTrace (k : Nat) : live (handleTrace k) = [k] := by
  induction k with
  | zero => rfl
  | succ k ih =>
    unfold live at ih ⊢
    simp [handleTrace, List.foldl_append, ih, liveStep]

theorem count_release_handleTrace (k id : Nat) :
    (handleTrace k).count (HandleEvent.release id) = if id < k then 1 else 0 := by
  induction k with
  | zero => simp [handleTrace]
  | succ k ih =>
    simp only [handleTrace, List.count_append, ih, List.count_cons, List.count_nil]
    by_cases h1 : id < k
    · have h2 : k ≠ id := by omega
      have h3 : id < k + 1 := by omega
      simp [h1, h2, h3]
    · by_cases h2 : k = id
      · subst h2
        simp
      · have h3 : ¬ id < k + 1 := by omega
        simp [h1, h2, h3]

theorem constructor_disciplined (fs : String → PathStatus α) (path : String)
    (r : GribFileReader α) (h : GribFileReader.GribFileReader fs path = Except.ok r) :
    Disciplined r := by
  unfold GribFileReader.GribFileReader at h
  cases hp : fs path with
  | missing => simp [hp] at h
  | unopenable => simp [hp] at h
  | readable f =>
    simp only [hp] at h
    unfold codes_handle_new_from_file at h
    rcases hm : f.messages with _ | ⟨_ | m, rest⟩
    · simp [hm] at h
    · simp [hm] at h
    · simp [hm] at h
      subst h
      exact ⟨0, m, rfl, rfl⟩

/-- The three ways in which a call of `next_message` on a disciplined reader ends. -/
theorem next_message_cases (r : GribFileReader α) (k : Nat) (m : Message α)
    (hg : r.grib_ = some ⟨k, m⟩) (he : r.events = handleTrace k) :
    (r.next_message = (Except.ok false, r)) ∨
    (∃ m2, r.next_message.1 = Except.ok true ∧ r.next_message.2.grib_ = some ⟨k + 1, m2⟩ ∧
      r.next_message.2.events = handleTrace (k + 1)) ∨
    (∃ e, r.next_message.1 = Except.error e ∧ r.next_message.2.grib_ = none ∧
      r.next_message.2.events = handleTrace k ++ [HandleEvent.release k]) := by
  unfold GribFileReader.next_message
  by_cases hi : r.index_ = r.count_
  · left
    simp [hi]
  · right
    have hacq : acquisitions (handleTrace k ++ [HandleEvent.release k]) = k + 1 := by
      have := acquisitions_handleTrace k
      unfold acquisitions at this ⊢
      simp [List.countP_append, this]
    simp only [hi, if_false, hg, he, codes_handle_delete]
    unfold codes_handle_new_from_file
    rcases hf : r.file_ with _ | f
    · right
      simp
    · rcases hm : f.messages with _ | ⟨_ | m2, rest⟩
      · right
        simp [hm]
      · right
        simp [hm]
      · left
        simp only [hm, hacq]
        refine ⟨m2, ?_, ?_, ?_⟩ <;> simp [handleTrace]

theorem reachable_disciplined (fs : String → PathStatus α) (path : String)
    (r : GribFileReader α) (hr : Reachable fs path r) : Disciplined r := by
  induction hr with
  | constructed r h => exact constructor_disciplined fs path r h
  | advanced r b _ h ih =>
    obtain ⟨k, m, hg, he⟩ := ih
    rcases next_message_cases r k m hg he with h1 | ⟨m2, _, h2, h3⟩ | ⟨e, h1, _, _⟩
    · rw [h1]
      exact ⟨k, m, hg, he⟩
    · exact ⟨k + 1, m2, h2, h3⟩
    · rw [h1] at h
      exact Except.noConfusion h

theorem constructor_readerOn (fs : String → PathStatus α) (path : String) (f : GribFile α)
    (ms : List (Message α)) (hfs : fs path = PathStatus.readable f)
    (hms : f.messages = ms.map some) (hne : ms ≠ []) :
    GribFileReader.GribFileReader fs path = Except.ok (readerOn f.count 0 ms) := by
  unfold GribFileReader.GribFileReader
  simp only [hfs]
  unfold codes_handle_new_from_file
  cases ms with
  | nil => exact absurd rfl hne
  | cons m rest =>
    simp [hms, readerOn, codes_count_in_file, handleTrace, acquisitions]

theorem next_message_readerOn_step (K : Int) (i : Nat) (a b : Message α)
    (rest : List (Message α)) (hi : (i : Int) + 1 ≠ K) :
    (readerOn K i (a :: b :: rest)).next_message =
      (Except.ok true, readerOn K (i + 1) (b :: rest)) := by
  have hacq : acquisitions (handleTrace i ++ [HandleEvent.release i]) = i + 1 := by
    have := acquisitions_handleTrace i
    unfold acquisitions at this ⊢
    simp [List.countP_append, this]
  unfold GribFileReader.next_message
  simp [readerOn, hi, codes_handle_delete, codes_handle_new_from_file, hacq, handleTrace]

theorem next_message_readerOn_last (K : Int) (i : Nat) (l : List (Message α))
    (hi : (i : Int) + 1 = K) :
    (readerOn K i l).next_message = (Except.ok false, readerOn K i l) := by
  unfold GribFileReader.next_message
  simp [readerOn, hi]

theorem after_calls_succ (n : Nat) (r : GribFileReader α) :
    after_calls (n + 1) r = (after_calls n r).next_message.2 := by
  unfold after_calls
  rw [Function.iterate_succ_apply']

theorem after_calls_readerOn (ms : List (Message α)) :
    ∀ i, i < ms.length →
      after_calls i (readerOn (ms.length : Int) 0 ms) = readerOn (ms.length : Int) i (ms.drop i) := by
  intro i
  induction i with
  | zero => intro _; rfl
  | succ i ih =>
    intro hi
    rw [after_calls_succ, ih (by omega)]
    have h1 : ms.drop i = ms[i] :: ms[i + 1] :: ms.drop (i + 1 + 1) := by
      rw [List.drop_eq_getElem_cons (by omega), List.drop_eq_getElem_cons hi]
    have h2 : ms.drop (i + 1) = ms[i + 1] :: ms.drop (i + 1 + 1) :=
      List.drop_eq_getElem_cons hi
    rw [h1, h2, next_message_readerOn_step _ _ _ _ _ (by omega)]

theorem after_calls_readerOn_last (ms : List (Message α)) (hK : 1 ≤ ms.length) :
    ∀ n, ms.length - 1 ≤ n →
      after_calls n (readerOn (ms.length : Int) 0 ms) =
        readerOn (ms.length : Int) (ms.length - 1) (ms.drop (ms.length - 1)) := by
  intro n
  induction n with
  | zero =>
    intro h
    have : ms.length - 1 = 0 := by omega
    rw [this]
    rfl
  | succ n ih =>
    intro h
    by_cases hn : ms.length - 1 ≤ n
    · rw [after_calls_succ, ih hn, next_message_readerOn_last _ _ _ (by omega)]
    · have : n + 1 = ms.length - 1 := by omega
      rw [this]
      exact after_calls_readerOn ms _ (by omega)

end Handles

/-- C4: over a file of `count >= 1` decodable messages the constructor leaves the ordinal at
1; each of the first `count - 1` calls of `next_message` returns true and adds one to the
ordinal, which therefore is `j + 1` after `j` calls and `count` after `count - 1` calls; every
later call returns false and leaves the whole reader, its handle and its event log included,
as it was. -/
theorem next_message_sequential {α : Type} (fs : String → PathStatus α) (path : String)
    (f : GribFile α) (ms : List (Message α)) (hfs : fs path = PathStatus.readable f)
    (hms : f.messages = ms.map some) (hcount : f.count = ms.length) (hK : 1 ≤ ms.length) :
    ∃ r0, GribFileReader.GribFileReader fs path = Except.ok r0 ∧ r0.index_ = 1 ∧
      r0.count = ms.length ∧
      (∀ j, j + 1 < ms.length →
        (after_calls j r0).next_message.1 = Except.ok true ∧
        (after_calls (j + 1) r0).index_ = (after_calls j r0).index_ + 1) ∧
      (∀ j, j < ms.length → (after_calls j r0).index_ = j + 1) ∧
      (after_calls (ms.length - 1) r0).index_ = ms.length ∧
      (∀ n, ms.length - 1 ≤ n →
        (after_calls n r0).next_message = (Except.ok false, after_calls n r0)) := by
  have hne : ms ≠ [] := by
    intro h
    rw [h] at hK
    simp at hK
  refine ⟨readerOn f.count 0 ms, constructor_readerOn fs path f ms hfs hms hne, rfl, ?_⟩
  rw [hcount]
  refine ⟨rfl, ?_, ?_, ?_, ?_⟩
  · intro j hj
    have h1 : ms.drop j = ms[j] :: ms[j + 1] :: ms.drop (j + 1 + 1) := by
      rw [List.drop_eq_getElem_cons (by omega), List.drop_eq_getElem_cons hj]
    rw [after_calls_readerOn ms (j + 1) hj, after_calls_readerOn ms j (by omega), h1,
      next_message_readerOn_step _ _ _ _ _ (by omega)]
    exact ⟨rfl, by simp [readerOn]⟩
  · intro j hj
    rw [after_calls_readerOn ms j hj]
    simp [readerOn]
  · rw [after_calls_readerOn ms _ (by omega)]
    simp only [readerOn]
    omega
  · intro n hn
    rw [after_calls_readerOn_last ms hK n hn]
    exact next_message_readerOn_last _ _ _ (by omega)

/-- C4 on the two messages of the end-to-end scenario. -/
theorem next_message_sequential_witness :
    ∃ r0, GribFileReader.GribFileReader (oneFile scenario) "in.grib" = Except.ok r0 ∧
      r0.index_ = 1 ∧ r0.count = 2 ∧
      (after_calls 0 r0).next_message.1 = Except.ok true ∧
      (after_calls 1 r0).index_ = 2 ∧
      (after_calls 1 r0).next_message = (Except.ok false, after_calls 1 r0) := by
  obtain ⟨r0, h0, h1, h2, h3, _, h5, h6⟩ :=
    next_message_sequential (oneFile scenario) "in.grib" _ scenario rfl rfl rfl (by decide)
  exact ⟨r0, h0, h1, h2, (h3 0 (by decide)).1, h5, h6 1 (by decide)⟩

/-- C8: in every state that the constructor and calls of `next_message` lead to, at most one
decoded message is acquired and not released, and no handle has been released twice; the
same holds for the state any further call of `next_message` ends in, whether it returns or
exits; a call that returns true releases the handle held, which was live, and then acquires
the next one; the destructor releases the handle held and leaves none live. -/
theorem at_most_one_live_handle {α : Type} (fs : String → PathStatus α) (path : String)
    (r : GribFileReader α) (hr : Reachable fs path r) :
    (live r.events).length ≤ 1 ∧
    (∀ id, r.events.count (HandleEvent.release id) ≤ 1) ∧
    (live r.next_message.2.events).length ≤ 1 ∧
    (∀ id, r.next_message.2.events.count (HandleEvent.release id) ≤ 1) ∧
    (r.next_message.1 = Except.ok true → ∃ h h2, r.grib_ = some h ∧ live r.events = [h.id] ∧
      r.next_message.2.grib_ = some h2 ∧
      r.next_message.2.events =
        r.events ++ [HandleEvent.release h.id, HandleEvent.acquire h2.id]) ∧
    (∃ h, r.grib_ = some h ∧ live r.events = [h.id] ∧
      r.destructor.events = r.events ++ [HandleEvent.release h.id]) ∧
    live r.destructor.events = [] ∧
    (∀ id, r.destructor.events.count (HandleEvent.release id) ≤ 1) := by
  obtain ⟨k, m, hg, he⟩ := reachable_disciplined fs path r hr
  have hcount : ∀ j id, (handleTrace j).count (HandleEvent.release id) ≤ 1 := by
    intro j id
    rw [count_release_handleTrace]
    split_ifs <;> omega
  have hrel : ∀ id, (handleTrace k ++ [HandleEvent.release k]).count (HandleEvent.release id)
      ≤ 1 := by
    intro id
    rw [List.count_append, count_release_handleTrace]
    by_cases h1 : id < k
    · have h2 : k ≠ id := by omega
      simp [h1, h2, List.count_cons]
    · simp only [h1, if_false, List.count_cons, List.count_nil]
      split_ifs <;> omega
  have hlive : live (handleTrace k ++ [HandleEvent.release k]) = [] := by
    have := live_handleTrace k
    unfold live at this ⊢
    simp [List.foldl_append, this, liveStep]
  have hdes : r.destructor.events = handleTrace k ++ [HandleEvent.release k] := by
    simp [GribFileReader.destructor, hg, he, codes_handle_delete]
  refine ⟨by simp [he, live_handleTrace], fun id => he ▸ hcount k id, ?_, ?_, ?_,
    ⟨⟨k, m⟩, hg, by simp [he, live_handleTrace], by rw [hdes, he]⟩,
    by rw [hdes, hlive], fun id => hdes ▸ hrel id⟩
  · rcases next_message_cases r k m hg he with h1 | ⟨m2, _, _, h3⟩ | ⟨e, _, _, h3⟩
    · simp [h1, he, live_handleTrace]
    · simp [h3, live_handleTrace]
    · simp [h3, hlive]
  · intro id
    rcases next_message_cases r k m hg he with h1 | ⟨m2, _, _, h3⟩ | ⟨e, _, _, h3⟩
    · rw [h1, he]
      exact hcount k id
    · rw [h3]
      exact hcount (k + 1) id
    · rw [h3]
      exact hrel id
  · intro ht
    rcases next_message_cases r k m hg he with h1 | ⟨m2, _, h2, h3⟩ | ⟨e, h1, _, _⟩
    · rw [h1] at ht
      simp at ht
    · exact ⟨⟨k, m⟩, ⟨k + 1, m2⟩, hg, by simp [he, live_handleTrace], h2, by
        rw [h3, he]
        rfl⟩
    · rw [h1] at ht
      exact Except.noConfusion ht

/-- C8 on the reader of the two-message scenario after one call of `next_message`. -/
theorem at_most_one_live_handle_witness :
    Reachable (oneFile scenario) "in.grib" (readerOn 2 0 scenario).next_message.2 ∧
    (live (readerOn 2 0 scenario).next_message.2.events).length ≤ 1 ∧
    live (readerOn 2 0 scenario).next_message.2.destructor.events = [] :=
  have hr : Reachable (oneFile scenario) "in.grib" (readerOn 2 0 scenario).next_message.2 :=
    Reachable.advanced _ true (Reachable.constructed _ rfl) rfl
  ⟨hr, (at_most_one_live_handle _ _ _ hr).1, (at_most_one_live_handle _ _ _ hr).2.2.2.2.2.2.1⟩

/-! ## The export -/

section Export

variable {α : Type}

theorem get_values_readerOn (K : Int) (j : Nat) (m : Message α) (rest : List (Message α))
    (u : Indeterminate) (values : List α) (hlen : values.length = m.values.length) :
    (readerOn K j (m :: rest)).get_values u values values.length = Except.ok m.values := by
  simp [GribFileReader.get_values, GribFileReader.get_values_size, codes_get_size, readerOn,
    codes_get_double_array, hlen]

/-- For a key that the message has, with a value that fits the buffer of `get_string`, the
accessor value is the value of the key. -/
theorem Message.string_of_lookup (m : Message α) (u : Indeterminate) (key value : String)
    (h : m.strings.lookup key = some value) (hlen : value.utf8ByteSize < 64) :
    m.string u key = value := by
  simp [Message.string, codes_get_string, h, hlen]

/-- For a key that the message has, the accessor value is the value of the key. -/
theorem Message.long_of_lookup (m : Message α) (u : Indeterminate) (key : String) (value : Int)
    (h : m.longs.lookup key = some value) : m.long u key = value := by
  simp [Message.long, codes_get_long, h]

theorem get_string_readerOn (K : Int) (j : Nat) (m : Message α) (rest : List (Message α))
    (u : Indeterminate) (key : String) :
    (readerOn K j (m :: rest)).get_string u key = Except.ok (m.string u key) := rfl

theorem get_long_readerOn (K : Int) (j : Nat) (m : Message α) (rest : List (Message α))
    (u : Indeterminate) (key : String) :
    (readerOn K j (m :: rest)).get_long u key = Except.ok (m.long u key) := rfl

/-- The field loop over the messages that remain appends their items, in file order. -/
theorem convert_fields_spec (u : Nat → String → Indeterminate) (K : Int) :
    ∀ (rest : List (Message α)) (m : Message α) (j : Nat) (values : List α)
      (w : RecordWriter α),
      K = (j : Int) + 1 + rest.length → values.length = m.values.length →
      (∀ x ∈ rest, x.values.length = m.values.length) →
      ∃ grib values2, convert_fields u (rest.length + 1) j (readerOn K j (m :: rest)) values w
        = Except.ok (grib, values2, ⟨w.entries ++ fieldsEntries u j (m :: rest)⟩) := by
  intro rest
  induction rest with
  | nil =>
    intro m j values w hK hlen _
    have hlast : (j : Int) + 1 = K := by simp at hK; omega
    refine ⟨readerOn K j [m], m.values, ?_⟩
    simp only [List.length_nil, convert_fields,
      get_values_readerOn K j m [] (u j "values") values hlen,
      get_string_readerOn, get_long_readerOn, next_message_readerOn_last K j [m] hlast,
      bind, Except.bind]
    simp [RecordWriter.set, fieldsEntries, fieldEntries, fieldKey, to_string_size_t]
  | cons b rest ih =>
    intro m j values w hK hlen hall
    have hstep : (j : Int) + 1 ≠ K := by simp at hK; omega
    have hb : b.values.length = m.values.length := hall b (List.mem_cons_self _ _)
    obtain ⟨grib, values2, h⟩ := ih b (j + 1) m.values
      ((((w.set (fieldKey j ".name")
          (Value.string (m.string (u j "shortName") "shortName")) none).set
        (fieldKey j ".description") (Value.string (m.string (u j "name") "name")) none).set
        (fieldKey j ".level") (Value.long (m.long (u j "level") "level")) none).set
        (fieldKey j ".array") (Value.array m.values) (some "lz4"))
      (by simp at hK ⊢; omega) hb.symm
      (fun x hx => (hall x (List.mem_cons_of_mem _ hx)).trans hb.symm)
    refine ⟨grib, values2, ?_⟩
    rw [List.length_cons, convert_fields]
    simp only [get_values_readerOn K j m (b :: rest) (u j "values") values hlen,
      get_string_readerOn, get_long_readerOn, next_message_readerOn_step K j m b rest hstep,
      bind, Except.bind]
    simp only [fieldKey, to_string_size_t] at h ⊢
    rw [h]
    simp [RecordWriter.set, fieldsEntries, fieldEntries, fieldKey]

/-- The export of a well-formed stream writes exactly `recordOf`. -/
theorem convert_record [Zero α] (u0 : String → Indeterminate)
    (u : Nat → String → Indeterminate) (fs : String → PathStatus α)
    (path : String) (f : GribFile α) (ms : List (Message α))
    (hfs : fs path = PathStatus.readable f) (hms : f.messages = ms.map some)
    (hcount : f.count = ms.length) (hK : 1 ≤ ms.length) (hint : ms.length < 2 ^ 31)
    (hpay : ∀ x ∈ ms, ∀ y ∈ ms, x.values.length = y.values.length) :
    convert_grib_to_atlas_io 0 u0 u fs path = Except.ok (some ⟨recordOf u0 u ms⟩) := by
  cases ms with
  | nil => simp at hK
  | cons m rest =>
    have hctor := constructor_readerOn fs path f (m :: rest) hfs hms (by simp)
    have hnfld : (f.count % 2 ^ 64).toNat = rest.length + 1 := by
      rw [hcount]
      simp only [List.length_cons] at hint ⊢
      omega
    obtain ⟨grib, values2, hloop⟩ := convert_fields_spec u f.count rest m 0
      (List.replicate m.values.length 0)
      ((RecordWriter.set (RecordWriter.set ⟨[]⟩ "grid.name"
        (Value.string (gridNamePolicy (m.string (u0 "gridType") "gridType")
          (decide (m.long (u0 "isOctahedral") "isOctahedral" ≠ 0))
          (m.long (u0 "N") "N"))) (some "lz4"))
        "fields.size" (Value.size_t (rest.length + 1)) none))
      (by rw [hcount]; simp; omega) (by simp)
      (fun x hx => hpay x (List.mem_cons_of_mem _ hx) m (List.mem_cons_self _ _))
    have hsize : (readerOn f.count 0 (m :: rest)).get_values_size (u0 "values")
        = m.values.length := by
      simp [GribFileReader.get_values_size, codes_get_size, readerOn]
    have hname : (readerOn f.count 0 (m :: rest)).get_gridname u0 = Except.ok
        (gridNamePolicy (m.string (u0 "gridType") "gridType")
          (decide (m.long (u0 "isOctahedral") "isOctahedral" ≠ 0))
          (m.long (u0 "N") "N")) := by
      rw [get_gridname_eq]
      rfl
    unfold convert_grib_to_atlas_io
    simp only [if_true, hctor, bind, Except.bind, GribFileReader.count, hname, hsize]
    have hc : (readerOn f.count 0 (m :: rest)).count_ = f.count := rfl
    rw [hc, hnfld, hloop]
    simp [recordOf, RecordWriter.set, pure, Except.pure]

end Export

/-! ## Keys of the record -/

section Keys

variable {α : Type}

theorem split_at_bracket : ∀ (l1 l2 r1 r2 : List Char), (∀ c ∈ l1, c ≠ ']') →
    (∀ c ∈ l2, c ≠ ']') → l1 ++ ']' :: r1 = l2 ++ ']' :: r2 → l1 = l2 ∧ r1 = r2 := by
  intro l1
  induction l1 with
  | nil =>
    intro l2 r1 r2 _ h2 h
    cases l2 with
    | nil => simpa using h
    | cons c l2 =>
      simp only [List.nil_append, List.cons_append, List.cons.injEq] at h
      exact absurd h.1.symm (h2 c (List.mem_cons_self _ _))
  | cons a l1 ih =>
    intro l2 r1 r2 h1 h2 h
    cases l2 with
    | nil =>
      simp only [List.nil_append, List.cons_append, List.cons.injEq] at h
      exact absurd h.1 (h1 a (List.mem_cons_self _ _))
    | cons c l2 =>
      simp only [List.cons_append, List.cons.injEq] at h
      obtain ⟨h3, h4⟩ := ih l2 r1 r2 (fun x hx => h1 x (List.mem_cons_of_mem _ hx))
        (fun x hx => h2 x (List.mem_cons_of_mem _ hx)) h.2
      exact ⟨by rw [h.1, h3], h4⟩

theorem fieldKey_data (i : Nat) (member : String) :
    (fieldKey i member).data =
      ['f', 'i', 'e', 'l', 'd', 's', '['] ++ ((toString i).data ++ ']' :: member.data) := by
  simp [fieldKey, String.data_append]

/-- Keys of different fields, or of different members of one field, differ. -/
theorem fieldKey_injective (i j : Nat) (s t : String) (h : fieldKey i s = fieldKey j t) :
    i = j ∧ s = t := by
  have h1 := congrArg String.data h
  rw [fieldKey_data, fieldKey_data, List.append_cancel_left_eq] at h1
  obtain ⟨h2, h3⟩ := split_at_bracket _ _ _ _ (fun c hc => ((repr_spec i).2.1 c hc).1)
    (fun c hc => ((repr_spec j).2.1 c hc).1) h1
  exact ⟨toString_nat_injective (String.ext h2), String.ext h3⟩

theorem fieldKey_ne_header (i : Nat) (s : String) :
    fieldKey i s ≠ "grid.name" ∧ fieldKey i s ≠ "fields.size" := by
  constructor
  · intro h
    have h1 := congrArg String.data h
    rw [fieldKey_data] at h1
    simp at h1
  · intro h
    have h1 := congrArg String.data h
    rw [fieldKey_data] at h1
    simp at h1

theorem mem_fieldsEntries_key (u : Nat → String → Indeterminate) :
    ∀ (ms : List (Message α)) (j : Nat) (e : Entry α), e ∈ fieldsEntries u j ms →
      ∃ i s, j ≤ i ∧ e.key = fieldKey i s := by
  intro ms
  induction ms with
  | nil => intro j e h; simp [fieldsEntries] at h
  | cons m ms ih =>
    intro j e h
    simp only [fieldsEntries, List.mem_append] at h
    rcases h with h | h
    · simp only [fieldEntries, List.mem_cons, List.mem_singleton, List.not_mem_nil,
        or_false] at h
      rcases h with h | h | h | h <;> subst h <;> exact ⟨j, _, le_refl _, rfl⟩
    · obtain ⟨i, s, hi, hk⟩ := ih (j + 1) e h
      exact ⟨i, s, by omega, hk⟩

theorem fieldsEntries_keys_nodup (u : Nat → String → Indeterminate) :
    ∀ (ms : List (Message α)) (j : Nat), ((fieldsEntries u j ms).map Entry.key).Nodup := by
  intro ms
  induction ms with
  | nil => intro j; simp [fieldsEntries]
  | cons m ms ih =>
    intro j
    simp only [fieldsEntries, List.map_append]
    rw [List.nodup_append]
    refine ⟨?_, ih (j + 1), ?_⟩
    · have h1 : ∀ s t : String, s ≠ t → fieldKey j s ≠ fieldKey j t :=
        fun s t hst h => hst (fieldKey_injective j j s t h).2
      simp [fieldEntries, h1]
    · intro k hk1 hk2
      obtain ⟨e2, he2, hke2⟩ := List.mem_map.1 hk2
      obtain ⟨i, s, hi, hk⟩ := mem_fieldsEntries_key u ms (j + 1) e2 he2
      simp only [fieldEntries, List.map_cons, List.map_nil, List.mem_cons, List.mem_singleton,
        List.not_mem_nil, or_false] at hk1
      rw [← hke2, hk] at hk1
      rcases hk1 with h | h | h | h <;>
        · have := (fieldKey_injective _ _ _ _ h).1
          omega

/-- No two items of the exported record share a key. -/
theorem recordOf_keys_nodup (u0 : String → Indeterminate)
    (u : Nat → String → Indeterminate) (ms : List (Message α)) :
    ((recordOf u0 u ms).map Entry.key).Nodup := by
  simp only [recordOf, List.map_append, List.map_cons, List.map_nil]
  rw [List.nodup_append]
  refine ⟨by simp, fieldsEntries_keys_nodup u ms 0, ?_⟩
  intro k hk1 hk2
  obtain ⟨e2, he2, hke2⟩ := List.mem_map.1 hk2
  obtain ⟨i, s, _, hk⟩ := mem_fieldsEntries_key u ms 0 e2 he2
  simp only [List.mem_cons, List.mem_singleton, List.not_mem_nil, or_false] at hk1
  rw [← hke2, hk] at hk1
  rcases hk1 with h | h
  · exact (fieldKey_ne_header i s).1 h
  · exact (fieldKey_ne_header i s).2 h

theorem mem_fieldsEntries (u : Nat → String → Indeterminate) :
    ∀ (ms : List (Message α)) (j i : Nat) (hi : i < ms.length) (e : Entry α),
      e ∈ fieldEntries (u (j + i)) (j + i) ms[i] → e ∈ fieldsEntries u j ms := by
  intro ms
  induction ms with
  | nil => intro j i hi; simp at hi
  | cons m ms ih =>
    intro j i hi e he
    simp only [fieldsEntries, List.mem_append]
    cases i with
    | zero => exact Or.inl he
    | succ i =>
      right
      refine ih (j + 1) i (by simpa using hi) e ?_
      have : j + 1 + i = j + (i + 1) := by omega
      rw [this]
      simpa using he

/-- Reading a key of a record without duplicate keys finds the item written under it. -/
theorem find_of_mem (l : List (Entry α)) (hl : (l.map Entry.key).Nodup) (e : Entry α)
    (he : e ∈ l) : (AtlasIOFileReader.mk l).find e.key = some e := by
  unfold AtlasIOFileReader.find
  cases hf : l.reverse.find? (fun x => decide (x.key = e.key)) with
  | none =>
    rw [List.find?_eq_none] at hf
    have := hf e (List.mem_reverse.2 he)
    simp at this
  | some x =>
    have h1 := List.find?_some hf
    have h2 := List.mem_reverse.1 (List.mem_of_find?_eq_some hf)
    simp only [decide_eq_true_eq] at h1
    rw [List.inj_on_of_nodup_map hl h2 he h1]

end Keys

/-! ## Reading the exported record back -/

section Load

variable {α : Type}

theorem recordOf_find (u0 : String → Indeterminate) (u : Nat → String → Indeterminate)
    (ms : List (Message α)) (i : Nat) (hi : i < ms.length) (e : Entry α)
    (he : e ∈ fieldEntries (u i) i ms[i]) :
    (AtlasIOFileReader.mk (recordOf u0 u ms)).find e.key = some e := by
  apply find_of_mem _ (recordOf_keys_nodup u0 u ms)
  unfold recordOf
  refine List.mem_append_right _ (mem_fieldsEntries u ms 0 i hi e ?_)
  simpa using he

/-- What the typed reads return on the exported record. -/
theorem recordOf_reads (u0 : String → Indeterminate) (u : Nat → String → Indeterminate)
    (ms : List (Message α)) :
    (AtlasIOFileReader.mk (recordOf u0 u ms)).read_size_t "fields.size"
      = Except.ok ms.length ∧
    ∀ (i : Nat) (hi : i < ms.length),
      (AtlasIOFileReader.mk (recordOf u0 u ms)).read_string (fieldKey i ".name")
        = Except.ok (ms[i].string (u i "shortName") "shortName") ∧
      (AtlasIOFileReader.mk (recordOf u0 u ms)).read_string (fieldKey i ".description")
        = Except.ok (ms[i].string (u i "name") "name") ∧
      (AtlasIOFileReader.mk (recordOf u0 u ms)).read_long (fieldKey i ".level")
        = Except.ok (ms[i].long (u i "level") "level") ∧
      (AtlasIOFileReader.mk (recordOf u0 u ms)).read_array (fieldKey i ".array")
        = Except.ok ms[i].values := by
  constructor
  · have h := find_of_mem _ (recordOf_keys_nodup u0 u ms)
      ⟨"fields.size", Value.size_t ms.length, none⟩ (by simp [recordOf])
    simp only at h
    simp [AtlasIOFileReader.read_size_t, h]
  · intro i hi
    have h1 := recordOf_find u0 u ms i hi
      ⟨fieldKey i ".name", Value.string (ms[i].string (u i "shortName") "shortName"), none⟩
      (by simp [fieldEntries])
    have h2 := recordOf_find u0 u ms i hi
      ⟨fieldKey i ".description", Value.string (ms[i].string (u i "name") "name"), none⟩
      (by simp [fieldEntries])
    have h3 := recordOf_find u0 u ms i hi
      ⟨fieldKey i ".level", Value.long (ms[i].long (u i "level") "level"), none⟩
      (by simp [fieldEntries])
    have h4 := recordOf_find u0 u ms i hi
      ⟨fieldKey i ".array", Value.array ms[i].values, some "lz4"⟩
      (by simp [fieldEntries])
    simp only at h1 h2 h3 h4
    simp [AtlasIOFileReader.read_string, AtlasIOFileReader.read_long,
      AtlasIOFileReader.read_array, h1, h2, h3, h4]

theorem recordOf_gridname (u0 : String → Indeterminate) (u : Nat → String → Indeterminate)
    (m : Message α) (rest : List (Message α)) :
    (AtlasIOFileReader.mk (recordOf u0 u (m :: rest))).read_string "grid.name" = Except.ok
      (gridNamePolicy (m.string (u0 "gridType") "gridType")
        (decide (m.long (u0 "isOctahedral") "isOctahedral" ≠ 0)) (m.long (u0 "N") "N")) := by
  have h := find_of_mem _ (recordOf_keys_nodup u0 u (m :: rest))
    ⟨"grid.name", Value.string (gridNamePolicy (m.string (u0 "gridType") "gridType")
      (decide (m.long (u0 "isOctahedral") "isOctahedral" ≠ 0)) (m.long (u0 "N") "N")),
      some "lz4"⟩
    (by simp [recordOf])
  simp only at h
  simp [AtlasIOFileReader.read_string, h]

/-- The field loop over a record whose items can be read: the fields created and the
operations issued. -/
theorem main_load_fields_spec (rank : Nat) (reader : AtlasIOFileReader α) :
    ∀ (l : List (Int × String × List α)) (j : Nat) (st : LoadState α),
      (∀ (i : Nat) (hi : i < l.length),
        reader.read_long (fieldKey (j + i) ".level") = Except.ok l[i].1 ∧
        reader.read_string (fieldKey (j + i) ".name") = Except.ok l[i].2.1 ∧
        (rank = 0 → reader.read_array (fieldKey (j + i) ".array") = Except.ok l[i].2.2)) →
      main_load_fields rank reader l.length j st = Except.ok
        ⟨st.fields ++ l.map (fun t =>
            ⟨loadedName t.1 t.2.1, if rank = 0 then some t.2.2 else none⟩),
          st.ops ++ phaseOrder rank j (l.map fun t => loadedName t.1 t.2.1)⟩ := by
  intro l
  induction l with
  | nil =>
    intro j st _
    simp [main_load_fields, phaseOrder]
  | cons t l ih =>
    intro j st h
    obtain ⟨h1, h2, h3⟩ := h 0 (by simp)
    simp only [Nat.add_zero, List.getElem_cons_zero] at h1 h2 h3
    have hrest : ∀ (i : Nat) (hi : i < l.length),
        reader.read_long (fieldKey (j + 1 + i) ".level") = Except.ok l[i].1 ∧
        reader.read_string (fieldKey (j + 1 + i) ".name") = Except.ok l[i].2.1 ∧
        (rank = 0 → reader.read_array (fieldKey (j + 1 + i) ".array") = Except.ok l[i].2.2) := by
      intro i hi
      have := h (i + 1) (by simpa using hi)
      have e : j + (i + 1) = j + 1 + i := by omega
      simpa [e] using this
    simp only [fieldKey] at h1 h2 h3
    rw [List.length_cons, main_load_fields]
    by_cases hr : rank = 0
    · simp only [to_string_size_t, h1, h2, h3 hr, hr, if_true, bind, Except.bind, pure,
        Except.pure]
      rw [← hr, ih (j + 1) _ hrest]
      simp [phaseOrder, loadedName, hr]
    · simp only [to_string_size_t, h1, h2, hr, if_false, bind, Except.bind, pure,
        Except.pure]
      rw [ih (j + 1) _ hrest]
      simp [phaseOrder, loadedName, hr]

/-- Lines 233-251 of main over a record whose items can be read. -/
theorem main_load_spec (rank : Nat) (reader : AtlasIOFileReader α)
    (l : List (Int × String × List α))
    (hsize : reader.read_size_t "fields.size" = Except.ok l.length)
    (hread : ∀ (i : Nat) (hi : i < l.length),
      reader.read_long (fieldKey i ".level") = Except.ok l[i].1 ∧
      reader.read_string (fieldKey i ".name") = Except.ok l[i].2.1 ∧
      (rank = 0 → reader.read_array (fieldKey i ".array") = Except.ok l[i].2.2)) :
    main_load rank reader = Except.ok
      ⟨l.map (fun t => ⟨loadedName t.1 t.2.1, if rank = 0 then some t.2.2 else none⟩),
        phaseOrder rank 0 (l.map fun t => loadedName t.1 t.2.1) ++
          [LoadOp.haloExchange (l.map fun t => loadedName t.1 t.2.1)]⟩ := by
  have h := main_load_fields_spec rank reader l 0 ⟨[], []⟩ (by simpa using hread)
  unfold main_load
  simp only [hsize, h, bind, Except.bind, pure, Except.pure]
  simp [Function.comp_def]

end Load

/-! ## Order of the operations of the load loop -/

theorem filter_phaseOrder (rank : Nat) :
    ∀ (names : List String) (j : Nat),
      (phaseOrder rank j names).filter isCollective = scatters j names := by
  intro names
  induction names with
  | nil => intro j; rfl
  | cons n names ih =>
    intro j
    by_cases hr : rank = 0
    · simp [phaseOrder, scatters, hr, isCollective, List.filter_cons, ← ih (j + 1)]
    · simp [phaseOrder, scatters, hr, isCollective, List.filter_cons, ← ih (j + 1)]

theorem scatters_length : ∀ (names : List String) (j : Nat),
    (scatters j names).length = names.length := by
  intro names
  induction names with
  | nil => intro j; rfl
  | cons n names ih => intro j; simp [scatters, ih (j + 1)]

theorem halo_not_mem_phaseOrder (rank : Nat) (ns : List String) :
    ∀ (names : List String) (j : Nat), LoadOp.haloExchange ns ∉ phaseOrder rank j names := by
  intro names
  induction names with
  | nil => intro j; simp [phaseOrder]
  | cons n names ih =>
    intro j
    by_cases hr : rank = 0
    · subst hr
      simp [phaseOrder, ih (j + 1)]
    · simp [phaseOrder, hr, ih (j + 1)]

/-- An element that does not occur before the last position occurs only there. -/
theorem last_occurrence {β : Type} (x y : β) :
    ∀ (l pre post : List β), x ∉ l → l ++ [y] = pre ++ x :: post →
      post = [] ∧ x = y ∧ pre = l := by
  intro l
  induction l with
  | nil =>
    intro pre post _ h
    cases pre with
    | nil =>
      simp only [List.nil_append, List.cons.injEq] at h
      exact ⟨h.2.symm, h.1.symm, rfl⟩
    | cons a pre =>
      simp only [List.nil_append, List.cons_append, List.cons.injEq] at h
      cases pre <;> simp at h
  | cons a l ih =>
    intro pre post hx h
    cases pre with
    | nil =>
      simp only [List.nil_append, List.cons_append, List.cons.injEq] at h
      exact absurd (h.1 ▸ List.mem_cons_self a l) hx
    | cons b pre =>
      simp only [List.cons_append, List.cons.injEq] at h
      obtain ⟨h1, h2, h3⟩ := ih pre post (fun hm => hx (List.mem_cons_of_mem _ hm)) h.2
      exact ⟨h1, h2, by rw [h.1, h3]⟩

/-- On rank 0 whatever comes before a scatter contains the read of the same field, unless the
scatter lies in the part appended after the phases. -/
theorem read_before_scatter (i : Nat) (name : String) :
    ∀ (names : List String) (j : Nat) (rest pre post : List LoadOp),
      phaseOrder 0 j names ++ rest = pre ++ LoadOp.scatter i name :: post →
      LoadOp.read i ∈ pre ∨
        ∃ pre2, pre = phaseOrder 0 j names ++ pre2 ∧
          rest = pre2 ++ LoadOp.scatter i name :: post := by
  intro names
  induction names with
  | nil =>
    intro j rest pre post h
    exact Or.inr ⟨pre, rfl, h⟩
  | cons n names ih =>
    intro j rest pre post h
    simp only [phaseOrder, if_true, List.singleton_append, List.cons_append,
      List.append_assoc, List.nil_append] at h
    cases pre with
    | nil => simp at h
    | cons a pre =>
      simp only [List.cons_append, List.cons.injEq] at h
      obtain ⟨ha, h⟩ := h
      cases pre with
      | nil =>
        simp only [List.nil_append, List.cons.injEq, LoadOp.scatter.injEq] at h
        left
        rw [← ha, h.1.1]
        exact List.mem_cons_self _ _
      | cons b pre =>
        simp only [List.cons_append, List.cons.injEq] at h
        obtain ⟨hb, h⟩ := h
        rcases ih (j + 1) rest pre post h with h1 | ⟨pre2, h1, h2⟩
        · left
          exact List.mem_cons_of_mem _ (List.mem_cons_of_mem _ h1)
        · right
          refine ⟨pre2, ?_, h2⟩
          simp [phaseOrder, ← ha, ← hb, h1]

/-- C9: for a record of `N` readable fields and every rank, the load loop issues, for each
field in index order, the read of its global array (on rank 0 only) and then its scatter, and
after the last field exactly one halo exchange over all `N` fields. Hence on rank 0 the read
of a field comes before its scatter, the halo exchange is the last operation and the only one
of its kind, and the collective calls (the `N` scatters in index order, then the halo
exchange) are the same on every other rank. -/
theorem load_phase_order {α : Type} (rank rank2 : Nat) (reader : AtlasIOFileReader α)
    (l : List (Int × String × List α))
    (hsize : reader.read_size_t "fields.size" = Except.ok l.length)
    (hread : ∀ (i : Nat) (hi : i < l.length),
      reader.read_long (fieldKey i ".level") = Except.ok l[i].1 ∧
      reader.read_string (fieldKey i ".name") = Except.ok l[i].2.1 ∧
      reader.read_array (fieldKey i ".array") = Except.ok l[i].2.2) :
    ∃ st st2, main_load rank reader = Except.ok st ∧ main_load rank2 reader = Except.ok st2 ∧
      st.ops = phaseOrder rank 0 (l.map fun t => loadedName t.1 t.2.1) ++
        [LoadOp.haloExchange (l.map fun t => loadedName t.1 t.2.1)] ∧
      (rank = 0 → ∀ pre post i name, st.ops = pre ++ LoadOp.scatter i name :: post →
        LoadOp.read i ∈ pre) ∧
      (∀ pre post ns, st.ops = pre ++ LoadOp.haloExchange ns :: post →
        post = [] ∧ ns = l.map (fun t => loadedName t.1 t.2.1)) ∧
      st.ops.filter isCollective = scatters 0 (l.map fun t => loadedName t.1 t.2.1) ++
        [LoadOp.haloExchange (l.map fun t => loadedName t.1 t.2.1)] ∧
      (scatters 0 (l.map fun t => loadedName t.1 t.2.1)).length = l.length ∧
      st2.ops.filter isCollective = st.ops.filter isCollective := by
  have h1 := main_load_spec rank reader l hsize
    (fun i hi => ⟨(hread i hi).1, (hread i hi).2.1, fun _ => (hread i hi).2.2⟩)
  have h2 := main_load_spec rank2 reader l hsize
    (fun i hi => ⟨(hread i hi).1, (hread i hi).2.1, fun _ => (hread i hi).2.2⟩)
  have hfilter : ∀ k : Nat,
      (phaseOrder k 0 (l.map fun t => loadedName t.1 t.2.1) ++
        [LoadOp.haloExchange (l.map fun t => loadedName t.1 t.2.1)]).filter isCollective =
      scatters 0 (l.map fun t => loadedName t.1 t.2.1) ++
        [LoadOp.haloExchange (l.map fun t => loadedName t.1 t.2.1)] := by
    intro k
    rw [List.filter_append, filter_phaseOrder]
    rfl
  refine ⟨_, _, h1, h2, rfl, ?_, ?_, hfilter rank, ?_, ?_⟩
  · intro hr pre post i name h
    subst hr
    rcases read_before_scatter i name _ 0 _ pre post h with h3 | ⟨pre2, _, h4⟩
    · exact h3
    · cases pre2 with
      | nil => simp at h4
      | cons a pre2 =>
        simp only [List.cons_append, List.cons.injEq] at h4
        cases pre2 <;> simp at h4
  · intro pre post ns h
    obtain ⟨h3, h4, _⟩ := last_occurrence _ _ _ pre post
      (halo_not_mem_phaseOrder rank ns _ 0) h
    exact ⟨h3, by injection h4⟩
  · rw [scatters_length, List.length_map]
  · show List.filter isCollective _ = List.filter isCollective _
    rw [hfilter rank2, hfilter rank]

/-- C9 on the record of the two-message scenario, on ranks 0 and 1. -/
theorem load_phase_order_witness :
    ∃ st st2,
      main_load 0 (AtlasIOFileReader.mk (recordOf sampleLeftovers sampleLoopLeftovers scenario)) = Except.ok st ∧
      main_load 1 (AtlasIOFileReader.mk (recordOf sampleLeftovers sampleLoopLeftovers scenario)) = Except.ok st2 ∧
      st.ops = [LoadOp.read 0, LoadOp.scatter 0 "t[850]", LoadOp.read 1,
        LoadOp.scatter 1 "u[500]", LoadOp.haloExchange ["t[850]", "u[500]"]] ∧
      st2.ops.filter isCollective = st.ops.filter isCollective := by
  obtain ⟨st, st2, h1, h2, h3, _, _, _, _, h8⟩ :=
    load_phase_order 0 1 (AtlasIOFileReader.mk (recordOf sampleLeftovers sampleLoopLeftovers scenario))
      scenarioFields rfl
      (fun i hi => match i, hi with
        | 0, _ => ⟨rfl, rfl, rfl⟩
        | 1, _ => ⟨rfl, rfl, rfl⟩
        | n + 2, h => absurd h (by simp [scenarioFields]))
  exact ⟨st, st2, h1, h2, h3.trans rfl, h8⟩

/-! ## The export and the round trip -/

theorem scenario_payloads :
    ∀ x ∈ scenario, ∀ y ∈ scenario, x.values.length = y.values.length := by
  intro x hx y hy
  simp only [scenario, List.mem_cons, List.mem_singleton, List.not_mem_nil, or_false] at hx hy
  rcases hx with rfl | rfl <;> rcases hy with rfl | rfl <;> rfl

theorem single_payload {α : Type} (m : Message α) :
    ∀ x ∈ [m], ∀ y ∈ [m], x.values.length = y.values.length := by
  intro x hx y hy
  rw [List.mem_singleton.1 hx, List.mem_singleton.1 hy]

/-- C2 fails as stated: for a stream of one message whose `name` is 64 bytes long, the
export succeeds and `fields[0].description` is not that name but what the buffer of
`get_string` held before the call, because the decoder does not write a value that does not
fit the 64 bytes. -/
theorem long_name_is_not_exported :
    convert_grib_to_atlas_io 0 sampleLeftovers sampleLoopLeftovers (oneFile longNameStream)
        "in.grib"
      = Except.ok (some ⟨recordOf sampleLeftovers sampleLoopLeftovers longNameStream⟩) ∧
    (longNameStream.map fun m => m.strings.lookup "name") = [some longText] ∧
    longText.utf8ByteSize = 64 ∧
    (AtlasIOFileReader.mk (recordOf sampleLeftovers sampleLoopLeftovers
      longNameStream)).read_string "fields[0].description" = Except.ok "?" ∧
    longText ≠ "?" :=
  ⟨convert_record sampleLeftovers sampleLoopLeftovers (oneFile longNameStream) "in.grib" _
      longNameStream rfl rfl rfl (by decide) (by decide) (single_payload _),
    rfl, by decide, rfl, by decide⟩

/-- C2 as amended: for a stream of `K >= 1` decodable messages with payloads of one length, the
record that `convert_grib_to_atlas_io` builds on rank 0 holds under `grid.name` what
`get_gridname` returns on the first message, under `fields.size` the number `K`, and for
message `i` in file order: under `fields[i].array` its whole payload; under `fields[i].level`
its level, when it has the key `level`; under `fields[i].name` and `fields[i].description`
its short name and its name, when it has the key and the value is at most 63 bytes long. -/
theorem export_record_contents {α : Type} [Zero α] (u0 : String → Indeterminate)
    (u : Nat → String → Indeterminate)
    (fs : String → PathStatus α) (path : String) (f : GribFile α) (ms : List (Message α))
    (hfs : fs path = PathStatus.readable f) (hms : f.messages = ms.map some)
    (hcount : f.count = ms.length) (hK : 1 ≤ ms.length) (hint : ms.length < 2 ^ 31)
    (hpay : ∀ x ∈ ms, ∀ y ∈ ms, x.values.length = y.values.length) :
    ∃ w r0, convert_grib_to_atlas_io 0 u0 u fs path = Except.ok (some w) ∧
      GribFileReader.GribFileReader fs path = Except.ok r0 ∧
      (∃ g, r0.get_gridname u0 = Except.ok g ∧
        (AtlasIOFileReader.mk w.entries).read_string "grid.name" = Except.ok g) ∧
      (AtlasIOFileReader.mk w.entries).read_size_t "fields.size" = Except.ok ms.length ∧
      ∀ (i : Nat) (hi : i < ms.length),
        (AtlasIOFileReader.mk w.entries).read_array (fieldKey i ".array")
          = Except.ok ms[i].values ∧
        (∀ level, ms[i].longs.lookup "level" = some level →
          (AtlasIOFileReader.mk w.entries).read_long (fieldKey i ".level")
            = Except.ok level) ∧
        (∀ shortName, ms[i].strings.lookup "shortName" = some shortName →
          shortName.utf8ByteSize < 64 →
          (AtlasIOFileReader.mk w.entries).read_string (fieldKey i ".name")
            = Except.ok shortName) ∧
        (∀ name, ms[i].strings.lookup "name" = some name → name.utf8ByteSize < 64 →
          (AtlasIOFileReader.mk w.entries).read_string (fieldKey i ".description")
            = Except.ok name) := by
  have hrec := convert_record u0 u fs path f ms hfs hms hcount hK hint hpay
  cases ms with
  | nil => simp at hK
  | cons m rest =>
    refine ⟨⟨recordOf u0 u (m :: rest)⟩, readerOn f.count 0 (m :: rest), hrec,
      constructor_readerOn fs path f (m :: rest) hfs hms (by simp), ?_,
      (recordOf_reads u0 u (m :: rest)).1, ?_⟩
    · refine ⟨_, ?_, recordOf_gridname u0 u m rest⟩
      rw [get_gridname_eq]
      rfl
    · intro i hi
      obtain ⟨h1, h2, h3, h4⟩ := (recordOf_reads u0 u (m :: rest)).2 i hi
      refine ⟨h4, ?_, ?_, ?_⟩
      · intro level hl
        rw [h3, Message.long_of_lookup _ _ _ _ hl]
      · intro shortName hs hfit
        rw [h1, Message.string_of_lookup _ _ _ _ hs hfit]
      · intro name hs hfit
        rw [h2, Message.string_of_lookup _ _ _ _ hs hfit]

/-- C2 as amended, on the end-to-end scenario of the specification: two messages with grid
type `regular_gg` and `N = 128`. -/
theorem export_record_contents_witness :
    ∃ w, convert_grib_to_atlas_io 0 sampleLeftovers sampleLoopLeftovers (oneFile scenario)
        "in.grib" = Except.ok (some w) ∧
      (AtlasIOFileReader.mk w.entries).read_string "grid.name" = Except.ok "F128" ∧
      (AtlasIOFileReader.mk w.entries).read_size_t "fields.size" = Except.ok 2 ∧
      (AtlasIOFileReader.mk w.entries).read_string "fields[0].name" = Except.ok "t" ∧
      (AtlasIOFileReader.mk w.entries).read_string "fields[0].description"
        = Except.ok "Temperature" ∧
      (AtlasIOFileReader.mk w.entries).read_long "fields[0].level" = Except.ok 850 ∧
      (AtlasIOFileReader.mk w.entries).read_array "fields[0].array"
        = Except.ok [1.0, 2.0, 3.0] ∧
      (AtlasIOFileReader.mk w.entries).read_string "fields[1].name" = Except.ok "u" ∧
      (AtlasIOFileReader.mk w.entries).read_string "fields[1].description"
        = Except.ok "U component of wind" ∧
      (AtlasIOFileReader.mk w.entries).read_long "fields[1].level" = Except.ok 500 ∧
      (AtlasIOFileReader.mk w.entries).read_array "fields[1].array"
        = Except.ok [4.0, 5.0, 6.0] := by
  obtain ⟨w, r0, hw, hr0, ⟨g, hg1, hg2⟩, hs, hf⟩ :=
    export_record_contents sampleLeftovers sampleLoopLeftovers (oneFile scenario) "in.grib" _
      scenario rfl rfl rfl (by decide) (by decide) scenario_payloads
  have hctor : GribFileReader.GribFileReader (oneFile scenario) "in.grib"
      = Except.ok (readerOn 2 0 scenario) := rfl
  rw [hctor] at hr0
  injection hr0 with hr0
  subst hr0
  have hname : (readerOn 2 0 scenario).get_gridname sampleLeftovers = Except.ok "F128" := rfl
  rw [hname] at hg1
  injection hg1 with hg1
  subst hg1
  exact ⟨w, hw, hg2, hs,
    (hf 0 (by decide)).2.2.1 "t" rfl (by decide),
    (hf 0 (by decide)).2.2.2 "Temperature" rfl (by decide),
    (hf 0 (by decide)).2.1 850 rfl, (hf 0 (by decide)).1,
    (hf 1 (by decide)).2.2.1 "u" rfl (by decide),
    (hf 1 (by decide)).2.2.2 "U component of wind" rfl (by decide),
    (hf 1 (by decide)).2.1 500 rfl, (hf 1 (by decide)).1⟩

/-- C3 fails as stated: for a stream of one message whose `shortName` is 64 bytes long, the
export followed by the load loop creates one field, and its name is not that short name
followed by `[850]` but `?[850]`, built from what the buffer of `get_string` held before the
call. -/
theorem long_short_name_is_not_loaded :
    convert_grib_to_atlas_io 0 sampleLeftovers sampleLoopLeftovers
        (oneFile longShortNameStream) "in.grib"
      = Except.ok (some ⟨recordOf sampleLeftovers sampleLoopLeftovers longShortNameStream⟩) ∧
    (longShortNameStream.map fun m => (m.strings.lookup "shortName", m.longs.lookup "level"))
      = [(some longText, some 850)] ∧
    longText.utf8ByteSize = 64 ∧
    (∃ st, main_load 0 (AtlasIOFileReader.mk
        (recordOf sampleLeftovers sampleLoopLeftovers longShortNameStream)) = Except.ok st ∧
      st.fields.map Field.name = ["?[850]"]) ∧
    longText ++ "[850]" ≠ "?[850]" :=
  ⟨convert_record sampleLeftovers sampleLoopLeftovers (oneFile longShortNameStream) "in.grib" _
      longShortNameStream rfl rfl rfl (by decide) (by decide) (single_payload _),
    rfl, by decide, ⟨_, rfl, rfl⟩, by decide⟩

/-- C3 as amended: for a stream of `K >= 1` decodable messages with payloads of one length, the
export followed by the load loop on a single process creates exactly `K` fields in message
order; the array read into the global field of field `i` is the payload of message `i`;
field `i` is named by the short name of message `i` followed by its level in brackets, when
the message has the keys `shortName` and `level` and the short name is at most 63 bytes long;
no two items of the record share a key, and keys of different fields or members always
differ. -/
theorem export_load_roundtrip {α : Type} [Zero α] (u0 : String → Indeterminate)
    (u : Nat → String → Indeterminate)
    (fs : String → PathStatus α) (path : String) (f : GribFile α) (ms : List (Message α))
    (hfs : fs path = PathStatus.readable f) (hms : f.messages = ms.map some)
    (hcount : f.count = ms.length) (hK : 1 ≤ ms.length) (hint : ms.length < 2 ^ 31)
    (hpay : ∀ x ∈ ms, ∀ y ∈ ms, x.values.length = y.values.length) :
    ∃ w st, convert_grib_to_atlas_io 0 u0 u fs path = Except.ok (some w) ∧
      main_load 0 (AtlasIOFileReader.mk w.entries) = Except.ok st ∧
      st.fields.length = ms.length ∧
      (∀ (i : Nat) (hi : i < ms.length), ∃ hj : i < st.fields.length,
        st.fields[i].global = some ms[i].values ∧
        ∀ shortName level, ms[i].strings.lookup "shortName" = some shortName →
          shortName.utf8ByteSize < 64 → ms[i].longs.lookup "level" = some level →
          st.fields[i].name = shortName ++ "[" ++ toString level ++ "]") ∧
      (w.entries.map Entry.key).Nodup ∧
      (∀ (i j : Nat) (s t : String), fieldKey i s = fieldKey j t → i = j ∧ s = t) := by
  have hrec := convert_record u0 u fs path f ms hfs hms hcount hK hint hpay
  have hlen : ((List.range ms.length).map fun i =>
      (((ms[i]?).map fun m => m.long (u i "level") "level").getD 0,
        ((ms[i]?).map fun m => m.string (u i "shortName") "shortName").getD "",
        ((ms[i]?).map fun m => m.values).getD [])).length = ms.length := by simp
  have hload := main_load_spec 0 (AtlasIOFileReader.mk (recordOf u0 u ms))
    ((List.range ms.length).map fun i =>
      (((ms[i]?).map fun m => m.long (u i "level") "level").getD 0,
        ((ms[i]?).map fun m => m.string (u i "shortName") "shortName").getD "",
        ((ms[i]?).map fun m => m.values).getD []))
    (by rw [hlen]; exact (recordOf_reads u0 u ms).1)
    (fun i hi => by
      have hi2 : i < ms.length := by rw [hlen] at hi; exact hi
      obtain ⟨h1, _, h3, h4⟩ := (recordOf_reads u0 u ms).2 i hi2
      simp only [List.getElem_map, List.getElem_range, List.getElem?_eq_getElem hi2,
        Option.map_some', Option.getD_some]
      exact ⟨h3, h1, fun _ => h4⟩)
  refine ⟨⟨recordOf u0 u ms⟩, _, hrec, hload, by simp, ?_, recordOf_keys_nodup u0 u ms,
    fieldKey_injective⟩
  intro i hi
  refine ⟨by simpa using hi, ?_, ?_⟩
  · simp [List.getElem?_eq_getElem hi]
  · intro shortName level hs hfit hl
    simp [List.getElem?_eq_getElem hi, loadedName, to_string,
      Message.string_of_lookup _ _ _ _ hs hfit, Message.long_of_lookup _ _ _ _ hl]

/-- C3 as amended, on the end-to-end scenario: the two fields come back as `t[850]` and
`u[500]` with their own payloads. -/
theorem export_load_roundtrip_witness :
    ∃ w st, convert_grib_to_atlas_io 0 sampleLeftovers sampleLoopLeftovers (oneFile scenario)
        "in.grib" = Except.ok (some w) ∧
      main_load 0 (AtlasIOFileReader.mk w.entries) = Except.ok st ∧
      st.fields.length = 2 ∧
      (∃ hj : 0 < st.fields.length,
        st.fields[0].global = some [1.0, 2.0, 3.0] ∧ st.fields[0].name = "t[850]") ∧
      (∃ hj : 1 < st.fields.length,
        st.fields[1].global = some [4.0, 5.0, 6.0] ∧ st.fields[1].name = "u[500]") := by
  obtain ⟨w, st, h1, h2, h3, h4, _, _⟩ :=
    export_load_roundtrip sampleLeftovers sampleLoopLeftovers (oneFile scenario) "in.grib" _
      scenario rfl rfl rfl (by decide) (by decide) scenario_payloads
  obtain ⟨hj0, h5, h6⟩ := h4 0 (by decide)
  obtain ⟨hj1, h7, h8⟩ := h4 1 (by decide)
  exact ⟨w, st, h1, h2, h3, ⟨hj0, h5, h6 "t" 850 rfl (by decide) rfl⟩,
    ⟨hj1, h7, h8 "u" 500 rfl (by decide) rfl⟩⟩

/-! ## The command line -/

theorem get_opt_dash (argv : List String) (c : Nat) (opt value : String)
    (hopt : opt.get 0 = '-') : get_opt argv c opt value = (c, value) := by
  unfold get_opt
  by_cases h : argv.getD c "" = opt
  · simp only [h, if_true, hopt, ne_eq, not_true_eq_false, if_false]
    split_ifs <;> rfl
  · simp only [h, if_false]

theorem get_opt_inert (argv : List String) (c : Nat) (value : String) :
    get_opt argv c "-o" value = (c, value) ∧ get_opt argv c "--output" value = (c, value) ∧
    get_opt argv c "--gmsh" value = (c, value) ∧
    get_opt argv c "--coordinates" value = (c, value) :=
  ⟨get_opt_dash argv c _ value (by decide), get_opt_dash argv c _ value (by decide),
   get_opt_dash argv c _ value (by decide), get_opt_dash argv c _ value (by decide)⟩

/-- Whatever the arguments are, the loop leaves the three value options as they were. -/
theorem parse_from_keeps_values (argv : List String) :
    ∀ (n c : Nat) (o : CommandLineOptions), argv.length - c = n →
      (CommandLineOptions.parse_from argv c o).atlas_io_file = o.atlas_io_file ∧
      (CommandLineOptions.parse_from argv c o).gmsh_file = o.gmsh_file ∧
      (CommandLineOptions.parse_from argv c o).gmsh_coordinates = o.gmsh_coordinates := by
  intro n
  induction n using Nat.strong_induction_on with
  | _ n ih =>
    intro c o hn
    rw [CommandLineOptions.parse_from]
    by_cases hc : c < argv.length
    · rw [if_pos hc]
      by_cases h1 : c = 1
      · rw [if_pos h1]
        exact ih (argv.length - (c + 1)) (by omega) (c + 1) _ rfl
      · rw [if_neg h1]
        simp only [(get_opt_inert argv c _).1, (get_opt_inert argv c _).2.1,
          (get_opt_inert argv c _).2.2.1, (get_opt_inert argv c _).2.2.2]
        exact ih (argv.length - (c + 1)) (by omega) (c + 1) _ rfl
    · rw [if_neg hc]
      exact ⟨rfl, rfl, rfl⟩

/-- C7 fails on the code: for the arguments `grib2atlas in.grib -o result.atlas` the parsed
`atlas_io_file` is still the default `out.atlas`, not `result.atlas`; `get_opt` tests the first
character of the option itself, which is always a dash, so no value is ever taken. -/
theorem output_option_is_ignored :
    (CommandLineOptions.CommandLineOptions
      ["grib2atlas", "in.grib", "-o", "result.atlas"]).atlas_io_file = "out.atlas" ∧
    (CommandLineOptions.CommandLineOptions
      ["grib2atlas", "in.grib", "-o", "result.atlas"]).atlas_io_file ≠ "result.atlas" ∧
    get_opt ["grib2atlas", "in.grib", "-o", "result.atlas"] 2 "-o" "out.atlas"
      = (2, "out.atlas") := by
  have h := (parse_from_keeps_values ["grib2atlas", "in.grib", "-o", "result.atlas"] _ 1
    CommandLineOptions.defaults rfl).1
  refine ⟨h, ?_, rfl⟩
  unfold CommandLineOptions.CommandLineOptions
  rw [h]
  decide

end Grib2Atlas
